import Mathlib

/-!
EBV2013: frame pipeline and main state machine.

A shallow embedding of `process_frame.c` (Otsu threshold, 3x3 erosion and
dilation, bounding-box annotation) and of `mainstate.c` (the handlers of the
capture-mode state machine and the request dispatcher), followed by the
properties proved about them.

Conventions of the embedding

* an image buffer (`uint8 *`) is a function from the flat pixel index to the
  byte stored there; a write is a pointwise update;
* `int` variables are integers wrapped to 32 bits by `toInt32` after every
  operation that can leave the range; the signed product `w0*w1`, whose
  overflow the language leaves undefined, is wrapped as well, and the
  statements that depend on it assume `NoOverflow`;
* `float` is IEEE-754 binary32 with round-to-nearest, ties-to-even, every
  operation rounded to binary32 (`F32`); a finite value is kept as sign,
  integer mantissa and binary exponent, so every operation is computed with
  integer arithmetic only.
-/

namespace EBV2013

/-! ## Single-precision floating point -/

/-- The values of the C type `float` (IEEE-754 binary32): not-a-number, the two
infinities, and the finite values `(-1)^neg * m * 2^e`. -/
inductive F32 where
  | nan : F32
  | inf (neg : Bool) : F32
  | fin (neg : Bool) (m : Nat) (e : Int) : F32
deriving DecidableEq, Repr

namespace F32

/-- The constant `0` of type `float`. -/
def zero : F32 := .fin false 0 0

/-- Bit scan with a step budget: the number of halvings that bring `n` below
`2`. -/
def ilog2Aux : Nat → Nat → Nat
  | 0, _ => 0
  | fuel + 1, n => if n < 2 then 0 else ilog2Aux fuel (n / 2) + 1

/-- The position of the leading bit of `n`: the largest `k` with `2^k ≤ n`
(`0` for `n = 0`). -/
def ilog2 (n : Nat) : Nat := ilog2Aux n n

/-- The exponent of the unit in the last place for the exact value
`(n / d) * 2^x`: 23 below the exponent of its leading bit, and never below
`-149` (gradual underflow). -/
def quantum (n d : Nat) (x : Int) : Int :=
  let e0 : Int := (ilog2 n : Int) - (ilog2 d : Int) + x
  let E : Int := if d * 2 ^ ilog2 n ≤ n * 2 ^ ilog2 d then e0 else e0 - 1
  max E (-126) - 23

/-- The integer nearest to `(n / d) * 2^(x - q)`, a tie going to the even
one. -/
def mantissa (n d : Nat) (x q : Int) : Nat :=
  let num : Nat := n * 2 ^ (x - q).toNat
  let den : Nat := d * 2 ^ (q - x).toNat
  let m : Nat := num / den
  let r : Nat := num % den
  if 2 * r < den then m else if 2 * r = den ∧ m % 2 = 0 then m else m + 1

/-- Rounding of the exact value `(-1)^neg * (n / d) * 2^x` (with `d ≠ 0`) to
binary32: 24 significant bits, round-to-nearest with ties to the even mantissa,
gradual underflow below `2^-126`, overflow to infinity from `2^128` on. -/
def round (neg : Bool) (n d : Nat) (x : Int) : F32 :=
  if n = 0 then .fin neg 0 0 else
  if 104 < quantum n d x ∨ (quantum n d x = 104 ∧ 2 ^ 24 ≤ mantissa n d x (quantum n d x))
  then .inf neg
  else .fin neg (mantissa n d x (quantum n d x)) (quantum n d x)

/-- Conversion `(float)i` of an `int`. -/
def ofInt (i : Int) : F32 := round (decide (i < 0)) i.natAbs 1 0

/-- Unary minus. -/
def neg : F32 → F32
  | nan => nan
  | inf s => inf (!s)
  | fin s m e => fin (!s) m e

/-- The operator `*` on `float`. -/
def mul : F32 → F32 → F32
  | nan, _ => nan
  | _, nan => nan
  | inf s, inf t => inf (xor s t)
  | inf s, fin t m _ => if m = 0 then nan else inf (xor s t)
  | fin s m _, inf t => if m = 0 then nan else inf (xor s t)
  | fin s m e, fin t n f => round (xor s t) (m * n) 1 (e + f)

/-- The operator `/` on `float`: `0/0` and `inf/inf` are not-a-number, a
non-zero value over zero is an infinity; nothing traps. -/
def div : F32 → F32 → F32
  | nan, _ => nan
  | _, nan => nan
  | inf _, inf _ => nan
  | inf s, fin t _ _ => inf (xor s t)
  | fin s _ _, inf t => fin (xor s t) 0 0
  | fin s m e, fin t n f =>
      if n = 0 then (if m = 0 then nan else inf (xor s t))
      else round (xor s t) m n (e - f)

/-- The signed mantissa of `(-1)^s * m * 2^e` over the smaller exponent `q`. -/
def scaled (s : Bool) (m : Nat) (e q : Int) : Int :=
  (if s then -1 else 1) * ((m * 2 ^ (e - q).toNat : Nat) : Int)

/-- The operator `+` on `float`. -/
def add : F32 → F32 → F32
  | nan, _ => nan
  | _, nan => nan
  | inf s, inf t => if s = t then inf s else nan
  | inf s, fin _ _ _ => inf s
  | fin _ _ _, inf t => inf t
  | fin s m e, fin t n f =>
      let q := min e f
      let v := scaled s m e q + scaled t n f q
      if v = 0 then fin (s && t) 0 0 else round (decide (v < 0)) v.natAbs 1 q

/-- The operator `-` on `float`. -/
def sub (a b : F32) : F32 := add a (neg b)

/-- The comparison `a >= b` on `float`: false as soon as one side is
not-a-number. -/
def ge : F32 → F32 → Bool
  | nan, _ => false
  | _, nan => false
  | inf s, inf t => !s || t
  | inf s, fin _ _ _ => !s
  | fin _ _ _, inf t => t
  | fin s m e, fin t n f =>
      let q := min e f
      decide (scaled t n f q ≤ scaled s m e q)

/-- The rational number a finite `float` stands for (`0` for the others). -/
def toRat : F32 → ℚ
  | fin s m e => (if s then -1 else 1) * (m : ℚ) * (2 : ℚ) ^ e
  | _ => 0

/-- A value that is a number and is not negative: `+inf`, or a finite value
with a clear sign bit. -/
def NonNeg (x : F32) : Prop := x = inf false ∨ ∃ m e, x = fin false m e

end F32

/-! ## Otsu threshold (`otsuThreshold`, process_frame.c) -/

/-- Wrap an integer to the range of a 32-bit `int`. -/
def toInt32 (x : Int) : Int := (x + 2147483648) % 4294967296 - 2147483648

/-- The pair of accumulators `w` (pixel count) and `m` (intensity sum) of one
side of the partition; both are `int`. -/
structure Part where
  w : Int
  m : Int
deriving DecidableEq, Repr

/-- One pass of an inner loop body: `m += hist[g]*g; w += hist[g];` where
`hist[g]` is `uint32`, so the sums are formed modulo `2^32` and stored back
into the `int`. -/
def otsuAccum (hist : Nat → Nat) (p : Part) (g : Nat) : Part :=
  { m := toInt32 (p.m + (((hist g * g) % 4294967296 : Nat) : Int)),
    w := toInt32 (p.w + ((hist g % 4294967296 : Nat) : Int)) }

/-- The loop `for(int g=0;g<k;g++)`: the background `[0,k)`. -/
def otsuLow (hist : Nat → Nat) (k : Nat) : Part :=
  (List.range k).foldl (otsuAccum hist) ⟨0, 0⟩

/-- The loop `for(int g=k;g<256;g++)`: the foreground `[k,256)`. -/
def otsuHigh (hist : Nat → Nat) (k : Nat) : Part :=
  (List.range' k (256 - k)).foldl (otsuAccum hist) ⟨0, 0⟩

/-- The expression
`w0*w1*(m0/(float)w0-m1/(float)w1)*(m0/(float)w0-m1/(float)w1)`:
`w0*w1` is an `int` product, converted to `float` by the first `*`. -/
def otsuScore (w0 w1 m0 m1 : Int) : F32 :=
  let d := F32.sub (F32.div (F32.ofInt m0) (F32.ofInt w0))
                   (F32.div (F32.ofInt m1) (F32.ofInt w1))
  F32.mul (F32.mul (F32.ofInt (toInt32 (w0 * w1))) d) d

/-- The value of `sigma_b_sqwared_new` at candidate `k`. -/
def otsuScoreAt (hist : Nat → Nat) (k : Nat) : F32 :=
  otsuScore (otsuLow hist k).w (otsuHigh hist k).w (otsuLow hist k).m (otsuHigh hist k).m

/-- The denominators of the `float` divisions that the score expression
evaluates at candidate `k`, in the order they are written. -/
def otsuDivisors (hist : Nat → Nat) (k : Nat) : List Int :=
  [(otsuLow hist k).w, (otsuHigh hist k).w, (otsuLow hist k).w, (otsuHigh hist k).w]

/-- The variables that live across the outer loop: `sigma_b_sqware_best` and
`k_best`. -/
structure OtsuState where
  best : F32
  kBest : Nat
deriving DecidableEq, Repr

/-- The body of the outer loop `for(int k=0;k<256;k++)`. -/
def otsuStep (hist : Nat → Nat) (s : OtsuState) (k : Nat) : OtsuState :=
  if F32.ge (otsuScoreAt hist k) s.best then { best := otsuScoreAt hist k, kBest := k } else s

/-- The state of the outer loop after the candidates `0 .. n-1`. -/
def otsuScan (hist : Nat → Nat) (n : Nat) : OtsuState :=
  (List.range n).foldl (otsuStep hist) { best := F32.zero, kBest := 0 }

/-- The value of `k_best` after the candidates `0 .. n-1`. -/
def otsuBest (hist : Nat → Nat) (n : Nat) : Nat :=
  (otsuScan hist n).kBest

/-- `int otsuThreshold(uint32 *hist, int siz)`; `siz` is not used by the
body. -/
def otsuThreshold (hist : Nat → Nat) (_siz : Int) : Nat :=
  otsuBest hist 256

/-- The sum `f a + f (a+1) + ... + f (a+n-1)` in unbounded arithmetic. -/
def sumFrom (f : Nat → Nat) (a : Nat) : Nat → Nat
  | 0 => 0
  | n + 1 => f a + sumFrom f (a + 1) n

/-- The number of samples in the background `[0,k)`. -/
def cntLow (hist : Nat → Nat) (k : Nat) : Nat := sumFrom hist 0 k

/-- The number of samples in the foreground `[k,256)`. -/
def cntHigh (hist : Nat → Nat) (k : Nat) : Nat := sumFrom hist k (256 - k)

/-- The intensity sum of the background `[0,k)`. -/
def sumLow (hist : Nat → Nat) (k : Nat) : Nat := sumFrom (fun g => hist g * g) 0 k

/-- The intensity sum of the foreground `[k,256)`. -/
def sumHigh (hist : Nat → Nat) (k : Nat) : Nat := sumFrom (fun g => hist g * g) k (256 - k)

/-- The histogram is small enough for the `int` arithmetic of `otsuThreshold`:
the total count, the total intensity sum and every product `w0*w1` stay below
`2^31`. -/
def NoOverflow (hist : Nat → Nat) : Prop :=
  cntLow hist 256 < 2147483648 ∧ sumLow hist 256 < 2147483648 ∧
    ∀ k, k < 256 → cntLow hist k * cntHigh hist k < 2147483648

/-- The between-class score of candidate `k` in exact rational arithmetic:
`w0 * w1 * (m0/w0 - m1/w1)^2`. -/
def otsuExactScore (hist : Nat → Nat) (k : Nat) : ℚ :=
  (cntLow hist k : ℚ) * (cntHigh hist k : ℚ) *
    ((sumLow hist k : ℚ) / (cntLow hist k : ℚ) - (sumHigh hist k : ℚ) / (cntHigh hist k : ℚ)) ^ 2

/-! ## Image buffers and the loops of `ProcessFrame` (process_frame.c) -/

/-- An image buffer `uint8 *`: the byte stored at every flat index. The
operations applied to pixels below (`&`, `|`, storing a byte constant) map
bytes to bytes, so no truncation is written out. -/
abbrev Img : Type := Nat → Nat

/-- The assignment `img[i] = v`. -/
def setPx (img : Img) (i v : Nat) : Img := fun j => if j = i then v else img j

/-- A loop `for(r = r0; r < limit; r += step)`, run with a budget of `fuel`
passes; `body r` is one pass. -/
def forRows {α : Type} (step limit : Nat) (body : Nat → α → α) : Nat → Nat → α → α
  | 0, _, s => s
  | fuel + 1, r, s =>
    if r < limit then forRows step limit body fuel (r + step) (body r s) else s

/-- The histogram loop `for(int i=0;i< siz;i++){ hist[p[i]]+=1; }` over the
zeroed `uint32 hist[256]`. -/
def buildHist (p : Img) (siz : Nat) : Nat → Nat :=
  (List.range siz).foldl
    (fun hist i => fun v => if v = p i then (hist v + 1) % 4294967296 else hist v)
    (fun _ => 0)

/-- The binarisation loops: for `r = 0, nc, 2nc, ... < siz` and `c < nc`,
`THRESHOLD[r+c] = (short) GRAYSCALE[r+c] < nThreshold ? 0 : 0xff`. -/
def binarize (nc siz : Nat) (nThreshold : Nat) (gray thr : Img) : Img :=
  forRows nc siz
    (fun r img => (List.range nc).foldl
      (fun im c => setPx im (r + c) (if gray (r + c) < nThreshold then 0 else 255)) img)
    siz 0 thr

/-- The right-hand side of the erosion assignment for `p = &src[i]`:
`*(p-nc-1) & *(p-nc) & *(p-nc+1) & *(p-1) & *p & *(p+1) & *(p+nc-1) & *(p+nc) &
*(p+nc+1)`. -/
def and9 (nc : Nat) (src : Img) (i : Nat) : Nat :=
  src (i - nc - 1) &&& src (i - nc) &&& src (i - nc + 1) &&&
  src (i - 1) &&& src i &&& src (i + 1) &&&
  src (i + nc - 1) &&& src (i + nc) &&& src (i + nc + 1)

/-- The right-hand side of the dilation assignment for `p = &src[i]`: the same
nine pixels joined by `|`. -/
def or9 (nc : Nat) (src : Img) (i : Nat) : Nat :=
  src (i - nc - 1) ||| src (i - nc) ||| src (i - nc + 1) |||
  src (i - 1) ||| src i ||| src (i + 1) |||
  src (i + nc - 1) ||| src (i + nc) ||| src (i + nc + 1)

/-- The two nested loops shared by erosion and dilation:
`for(r = nc; r < siz-nc; r+= nc) for(c = 1; c < nc-1; c++) dst[r+c] = f(r+c)`,
where `f` reads the source buffer only. -/
def morphPass (nc siz : Nat) (f : Nat → Nat) (dst : Img) : Img :=
  forRows nc (siz - nc)
    (fun r img => (List.range' 1 (nc - 2)).foldl (fun im c => setPx im (r + c) (f (r + c))) img)
    siz nc dst

/-- The erosion pass: reads `THRESHOLD`, writes `EROSION`. -/
def erodePass (nc siz : Nat) (thr ero : Img) : Img :=
  morphPass nc siz (and9 nc thr) ero

/-- The dilation pass: reads `EROSION`, writes `DILATION`. -/
def dilatePass (nc siz : Nat) (ero dil : Img) : Img :=
  morphPass nc siz (or9 nc ero) dil

/-- The pixel of row `r` and column `c` in an image of width `nc`. -/
def px (img : Img) (nc r c : Nat) : Nat := img (r * nc + c)

/-- The bitwise AND of the nine pixels of the 3x3 neighbourhood of `(r, c)`. -/
def and3x3 (img : Img) (nc r c : Nat) : Nat :=
  px img nc (r - 1) (c - 1) &&& px img nc (r - 1) c &&& px img nc (r - 1) (c + 1) &&&
  px img nc r (c - 1) &&& px img nc r c &&& px img nc r (c + 1) &&&
  px img nc (r + 1) (c - 1) &&& px img nc (r + 1) c &&& px img nc (r + 1) (c + 1)

/-- The bitwise OR of the nine pixels of the 3x3 neighbourhood of `(r, c)`. -/
def or3x3 (img : Img) (nc r c : Nat) : Nat :=
  px img nc (r - 1) (c - 1) ||| px img nc (r - 1) c ||| px img nc (r - 1) (c + 1) |||
  px img nc r (c - 1) ||| px img nc r c ||| px img nc r (c + 1) |||
  px img nc (r + 1) (c - 1) ||| px img nc (r + 1) c ||| px img nc (r + 1) (c + 1)

/-- The pixel `(r, c)` lies on the 1-pixel border of an image of `height` rows
and `nc` columns. -/
def onBorder (nc height r c : Nat) : Prop :=
  r = 0 ∨ r + 1 = height ∨ c = 0 ∨ c + 1 = nc

/-- The bounding box of one region (`bboxTop`, `bboxLeft`, `bboxBottom`,
`bboxRight`, all `uint16`). -/
structure Box where
  top : Nat
  left : Nat
  bottom : Nat
  right : Nat
deriving DecidableEq, Repr

/-- The body of the loop over regions in `OscVisDrawBoundingBoxBW`: the loop
drawing the horizontal lines, then the loop drawing the vertical lines. The
counter `i` is `uint16` and stays below a `uint16` bound, so it never wraps;
`bboxBottom - 1` is formed for `bboxBottom >= 1`. -/
def drawBox (width color : Nat) (img : Img) (b : Box) : Img :=
  let img1 := (List.range' b.left (b.right - b.left)).foldl
    (fun im i => setPx (setPx im (width * b.top + i) color) (width * (b.bottom - 1) + i) color)
    img
  (List.range' b.top (b.bottom - 1 - b.top)).foldl
    (fun im i => setPx (setPx im (width * i + b.left) color) (width * i + b.right) color)
    img1

/-- `OscVisDrawBoundingBoxBW(picIn, regions, Color)` on the pixel buffer of
`picIn`, whose width is `width`. -/
def OscVisDrawBoundingBoxBW (img : Img) (width : Nat) (regions : List Box) (color : Nat) : Img :=
  regions.foldl (drawBox width color) img

/-- The pixels of the outline of a box: the rows `top` and `bottom-1` over the
columns `[left, right)`, and the columns `left` and `right` over the rows
`[top, bottom-1)`. -/
def onOutline (b : Box) (r c : Nat) : Prop :=
  ((r = b.top ∨ r = b.bottom - 1) ∧ b.left ≤ c ∧ c < b.right) ∨
    ((c = b.left ∨ c = b.right) ∧ b.top ≤ r ∧ r < b.bottom - 1)

instance (b : Box) (r c : Nat) : Decidable (onOutline b r c) := by
  unfold onOutline
  infer_instance

/-! ## The shared state `data` and the frame pipeline -/

/-- The capture mode recorded in the application state (`enAppMode`). -/
inductive EnAppMode where
  | APP_CAPTURE_COLOR
  | APP_CAPTURE_RAW
deriving DecidableEq, Repr

/-- The state of the pending request (`enReqState`). -/
inductive EnRequestState where
  | REQ_STATE_IDLE
  | REQ_STATE_ACK_PENDING
  | REQ_STATE_NACK_PENDING
deriving DecidableEq, Repr

/-- The application state snapshot `struct APPLICATION_STATE` (`data.ipc.state`). -/
structure APPLICATION_STATE where
  bNewImageReady : Bool
  imageTimeStamp : Nat
  enAppMode : EnAppMode
deriving DecidableEq, Repr

/-- Modelled from the spec: the collaborators of the Oscar framework and the
constants of `template.h`, none of which is among the sources. `nc` is
`OSC_CAM_MAX_IMAGE_WIDTH/2`, `height` is `OSC_CAM_MAX_IMAGE_HEIGHT/2`;
`debayer` is `OscVisDebayerGreyscaleHalfSize`, `grey2BW` is `OscVisGrey2BW` with
threshold `0x80`, `label` is `OscVisLabelBinary` followed by
`OscVisGetRegionProperties`. -/
structure Oscar where
  nc : Nat
  height : Nat
  debayer : Img → Img
  grey2BW : Img → Img
  label : Img → List Box

/-- The parts of the global `data` that the two source files read or write.
The request buffer `data.ipc.req.pAddr` appears under its three uses: the
boolean payload of a set-capture-mode request (`reqFlag`), the application state
written by a state query (`respState`) and the image written by an image query
(`respImage`). `cyc` is the value `OscSupCycGet()` returns. -/
structure Data where
  state : APPLICATION_STATE
  enReqState : EnRequestState
  reqFlag : Bool
  respState : APPLICATION_STATE
  respImage : Img
  pCurRawImg : Nat
  u8FrameBuffers : Nat → Img
  gray : Img
  thr : Img
  ero : Img
  dil : Img
  u8ResultImage : Img
  nThreshold : Nat
  cyc : Nat

/-- `void ProcessFrame(uint8 *pInputImg)`: histogram, Otsu threshold,
binarisation, erosion, dilation, conversion and labelling by the framework, and
the bounding boxes drawn with intensity 255 into the grayscale image and with
intensity 128 into the dilation image. `siz` is the size `nc * height` of one
working image. -/
def ProcessFrame (o : Oscar) (d : Data) : Data :=
  let siz := o.nc * o.height
  let hist := buildHist d.gray siz
  let t := otsuThreshold hist (siz : Int)
  let thr := binarize o.nc siz t d.gray d.thr
  let ero := erodePass o.nc siz thr d.ero
  let dil := dilatePass o.nc siz ero d.dil
  let bw := o.grey2BW dil
  let regions := o.label bw
  { d with
    nThreshold := t
    thr := thr
    ero := bw
    gray := OscVisDrawBoundingBoxBW d.gray o.nc regions 255
    dil := OscVisDrawBoundingBoxBW dil o.nc regions 128 }

/-! ## The main state machine (mainstate.c) -/

/-- The events: the three events of the framework and `enum MainStateEvents`. -/
inductive Event where
  | START_EVT
  | ENTRY_EVT
  | EXIT_EVT
  | FRAMESEQ_EVT
  | FRAMEPAR_EVT
  | IPC_GET_APP_STATE_EVT
  | IPC_GET_COLOR_IMG_EVT
  | IPC_GET_RAW_IMG_EVT
  | IPC_SET_CAPTURE_MODE_EVT
deriving DecidableEq, Repr

/-- The states built by `MainStateConstruct`: the top state and its two
children. -/
inductive StateId where
  | top
  | captureRaw
  | captureColor
deriving DecidableEq, Repr

/-- The state machine `MainState` together with the global `data`: `curr` is
the active state (`me->curr`), `next` the target of a pending transition
(`me->next`, null when there is none). -/
structure Sys where
  curr : StateId
  next : Option StateId
  data : Data

/-- Modelled from the spec: the macro `STATE_START(me, target)` of the
framework, which records the initial substate. -/
def STATE_START (s : Sys) (target : StateId) : Sys :=
  { s with next := some target }

/-- Modelled from the spec: the macro `STATE_TRAN(me, target)` of the
framework. It sends the exit event to the active substate, moves `curr` up to
the common parent (the top state) and records the target. The exit event
reaches the handler that is running; neither handler has a case for it, so it
changes nothing. -/
def STATE_TRAN (s : Sys) (target : StateId) : Sys :=
  { s with curr := StateId.top, next := some target }

/-- `Msg const *MainState_top(MainState *me, Msg *msg)`; the first component
tells whether the event was consumed (`return 0`). -/
def MainState_top (s : Sys) (e : Event) : Bool × Sys :=
  match e with
  | Event.START_EVT => (true, STATE_START s StateId.captureRaw)
  | Event.IPC_GET_COLOR_IMG_EVT | Event.IPC_GET_RAW_IMG_EVT
  | Event.IPC_GET_APP_STATE_EVT | Event.IPC_SET_CAPTURE_MODE_EVT =>
    (true, { s with data := { s.data with
      enReqState := EnRequestState.REQ_STATE_NACK_PENDING } })
  | _ => (false, s)

/-- `Msg const *MainState_CaptureColor(MainState *me, Msg *msg)`. On the
parallel frame event the debayered frame is written to `data.u8TempImage`, whose
first image is the grayscale working image, and `ProcessFrame` runs on it. -/
def MainState_CaptureColor (o : Oscar) (s : Sys) (e : Event) : Bool × Sys :=
  match e with
  | Event.ENTRY_EVT =>
    (true, { s with data := { s.data with
      state := { s.data.state with enAppMode := EnAppMode.APP_CAPTURE_COLOR }
      pCurRawImg := 0 } })
  | Event.FRAMESEQ_EVT => (true, s)
  | Event.FRAMEPAR_EVT =>
    let d1 := { s.data with gray := o.debayer (s.data.u8FrameBuffers s.data.pCurRawImg) }
    let d2 := ProcessFrame o d1
    (true, { s with data := { d2 with
      state := { d2.state with imageTimeStamp := d2.cyc, bNewImageReady := true } } })
  | Event.IPC_GET_APP_STATE_EVT =>
    (true, { s with data := { s.data with
      respState := s.data.state
      enReqState := EnRequestState.REQ_STATE_ACK_PENDING } })
  | Event.IPC_GET_COLOR_IMG_EVT =>
    (true, { s with data := { s.data with
      respImage := s.data.u8ResultImage
      state := { s.data.state with bNewImageReady := false }
      enReqState := EnRequestState.REQ_STATE_ACK_PENDING } })
  | Event.IPC_SET_CAPTURE_MODE_EVT =>
    let s1 := if s.data.reqFlag = false then STATE_TRAN s StateId.captureRaw else s
    (true, { s1 with data := { s1.data with
      enReqState := EnRequestState.REQ_STATE_ACK_PENDING } })
  | _ => (false, s)

/-- `Msg const *MainState_CaptureRaw(MainState *me, Msg *msg)`. -/
def MainState_CaptureRaw (o : Oscar) (s : Sys) (e : Event) : Bool × Sys :=
  match e with
  | Event.ENTRY_EVT =>
    (true, { s with data := { s.data with
      state := { s.data.state with enAppMode := EnAppMode.APP_CAPTURE_RAW }
      pCurRawImg := 0 } })
  | Event.FRAMESEQ_EVT =>
    (true, { s with data := { s.data with
      state := { s.data.state with imageTimeStamp := s.data.cyc, bNewImageReady := true } } })
  | Event.FRAMEPAR_EVT => (true, s)
  | Event.IPC_GET_APP_STATE_EVT =>
    (true, { s with data := { s.data with
      respState := s.data.state
      enReqState := EnRequestState.REQ_STATE_ACK_PENDING } })
  | Event.IPC_GET_RAW_IMG_EVT =>
    (true, { s with data := { s.data with
      respImage := o.debayer (s.data.u8FrameBuffers s.data.pCurRawImg)
      state := { s.data.state with bNewImageReady := false }
      enReqState := EnRequestState.REQ_STATE_ACK_PENDING } })
  | Event.IPC_SET_CAPTURE_MODE_EVT =>
    let s1 := if s.data.reqFlag = true then STATE_TRAN s StateId.captureColor else s
    (true, { s1 with data := { s1.data with
      enReqState := EnRequestState.REQ_STATE_ACK_PENDING } })
  | _ => (false, s)

/-- The handler that `MainStateConstruct` attaches to each state. -/
def handler (o : Oscar) (st : StateId) (s : Sys) (e : Event) : Bool × Sys :=
  match st with
  | StateId.top => MainState_top s e
  | StateId.captureRaw => MainState_CaptureRaw o s e
  | StateId.captureColor => MainState_CaptureColor o s e

/-- The parent given to each state by `MainStateConstruct`. -/
def superOf : StateId → Option StateId
  | StateId.top => none
  | StateId.captureRaw => some StateId.top
  | StateId.captureColor => some StateId.top

/-- Modelled from the spec: the part of the framework's engine that completes
a transition. While a target is recorded, the entry action of the target runs
once, the target becomes the active state, and the start event is offered to it
(a substate may name an initial substate of its own). The nesting is two levels
deep, which bounds the number of rounds by `fuel`. -/
def enterTarget (o : Oscar) : Nat → Sys → Sys
  | 0, s => s
  | fuel + 1, s =>
    match s.next with
    | none => s
    | some t =>
      let s1 := (handler o t s Event.ENTRY_EVT).2
      let s2 := { s1 with curr := t, next := none }
      enterTarget o fuel (handler o t s2 Event.START_EVT).2

/-- Modelled from the spec: `HsmOnStart` of the framework: the top state becomes
active, receives the start event and the initial transition is completed. -/
def HsmOnStart (o : Oscar) (s : Sys) : Sys :=
  let s0 := { s with curr := StateId.top, next := none }
  enterTarget o 2 (handler o StateId.top s0 Event.START_EVT).2

/-- Modelled from the spec: `HsmOnEvent` of the framework: the event is offered
to the active state and, when that state does not consume it, to its parent;
after it has been consumed, a recorded transition is completed. -/
def HsmOnEvent (o : Oscar) (s : Sys) (e : Event) : Sys :=
  let r1 := handler o s.curr s e
  if r1.1 then enterTarget o 2 r1.2
  else
    match superOf s.curr with
    | none => r1.2
    | some p =>
      let r2 := handler o p r1.2 e
      if r2.1 then enterTarget o 2 r2.2 else r2.2

/-- `void ThrowEvent(struct MainState *pHsm, unsigned int evt)`: the message
`mainStateMsg[evt]` carries the event `evt`. -/
def ThrowEvent (o : Oscar) (s : Sys) (evt : Event) : Sys :=
  HsmOnEvent o s evt

/-- A collaborator set for examples: 4x4 working images, a debayering that
copies, a conversion that copies and a labelling that finds no region. -/
def oscarStub : Oscar :=
  { nc := 4, height := 4, debayer := fun img => img, grey2BW := fun img => img,
    label := fun _ => [] }

/-- A value of the global `data` for examples: nothing pending, all buffers
zero. -/
def dataZero : Data :=
  { state := { bNewImageReady := false, imageTimeStamp := 0,
               enAppMode := EnAppMode.APP_CAPTURE_COLOR },
    enReqState := EnRequestState.REQ_STATE_IDLE,
    reqFlag := false,
    respState := { bNewImageReady := false, imageTimeStamp := 0,
                   enAppMode := EnAppMode.APP_CAPTURE_COLOR },
    respImage := fun _ => 0,
    pCurRawImg := 0,
    u8FrameBuffers := fun _ _ => 0,
    gray := fun _ => 0, thr := fun _ => 0, ero := fun _ => 0, dil := fun _ => 0,
    u8ResultImage := fun _ => 0,
    nThreshold := 0,
    cyc := 0 }

/-- The state machine before `HsmOnStart`. -/
def sysZero : Sys := { curr := StateId.top, next := none, data := dataZero }

/-- The request transport has stored the boolean payload `b` of a
set-capture-mode request in the request buffer. -/
def setReqFlag (s : Sys) (b : Bool) : Sys :=
  { s with data := { s.data with reqFlag := b } }

/-- The image that is `0xff` at the flat index `p` and `0` elsewhere. -/
def imgSingle (p : Nat) : Img := fun i => if i = p then 255 else 0

/-- The image that is `0` everywhere. -/
def imgBlank : Img := fun _ => 0

/-- A histogram with three occupied levels: 33 samples at level 253, one at
254 and 34 at 255. -/
def histNearTie : Nat → Nat :=
  fun g => if g = 253 then 33 else if g = 254 then 1 else if g = 255 then 34 else 0

/-- A histogram with two spikes: one sample at level 50 and one at level 200. -/
def histTwoSpikes : Nat → Nat :=
  fun g => if g = 50 then 1 else if g = 200 then 1 else 0

/-- The histogram of no samples at all. -/
def histEmpty : Nat → Nat := fun _ => 0

/-- A histogram with two spikes of 46341 samples each, at levels 0 and 255:
the product `w0*w1 = 46341 * 46341 = 2147488281` does not fit an `int`. -/
def histOverflow : Nat → Nat :=
  fun g => if g = 0 then 46341 else if g = 255 then 46341 else 0

/-! ## The request dispatcher (`HandleIpcRequests`, mainstate.c) -/

/-- Modelled from the spec: the parameter ids of `template.h`, which is not
among the sources. The `uint32` that the transport reports is one of the four
ids named in the `switch`, or some other number. -/
inductive ParamId where
  | GET_APP_STATE
  | GET_COLOR_IMG
  | GET_RAW_IMG
  | SET_CAPTURE_MODE
  | unknown (id : Nat)
deriving DecidableEq, Repr

/-- The status `SUCCESS` of the framework. -/
def SUCCESS : Int := 0

/-- Modelled from the spec: the request transport, which is not among the
sources. `checkErr` and `paramId` are what `CheckIpcRequests(&paramId)` reports,
`payload` is the boolean a set-capture-mode request carries in the request
buffer, `ack` is `AckIpcRequests()`, which returns a status and may update the
pending request; `ENO_MSG_AVAIL` is the error code of the framework. -/
structure Transport where
  ENO_MSG_AVAIL : Int
  checkErr : Int
  paramId : ParamId
  payload : Bool
  ack : Data → Int × Data

/-- What one call of `HandleIpcRequests` did: the status returned, the state
machine and `data` afterwards, the events passed to `ThrowEvent` in order, and
whether `AckIpcRequests` was called. -/
structure IpcOutcome where
  err : Int
  sys : Sys
  thrown : List Event
  ackTried : Bool

/-- The statement `switch(paramId)` of `HandleIpcRequests`: the state
afterwards and the events thrown. -/
def ipcSwitch (o : Oscar) (s : Sys) : ParamId → Sys × List Event
  | ParamId.GET_APP_STATE =>
    (ThrowEvent o s Event.IPC_GET_APP_STATE_EVT, [Event.IPC_GET_APP_STATE_EVT])
  | ParamId.GET_COLOR_IMG =>
    (ThrowEvent o s Event.IPC_GET_COLOR_IMG_EVT, [Event.IPC_GET_COLOR_IMG_EVT])
  | ParamId.GET_RAW_IMG =>
    (ThrowEvent o s Event.IPC_GET_RAW_IMG_EVT, [Event.IPC_GET_RAW_IMG_EVT])
  | ParamId.SET_CAPTURE_MODE =>
    (ThrowEvent o s Event.IPC_SET_CAPTURE_MODE_EVT, [Event.IPC_SET_CAPTURE_MODE_EVT])
  | ParamId.unknown _ =>
    ({ s with data := { s.data with
        enReqState := EnRequestState.REQ_STATE_NACK_PENDING } }, [])

/-- `static OSC_ERR HandleIpcRequests(MainState *pMainState)`. A request that
has arrived is in the request buffer when the `switch` runs. -/
def HandleIpcRequests (o : Oscar) (t : Transport) (s : Sys) : IpcOutcome :=
  if t.checkErr = SUCCESS then
    let r := ipcSwitch o (setReqFlag s t.payload) t.paramId
    let a := t.ack r.1.data
    { err := a.1, sys := { r.1 with data := a.2 }, thrown := r.2, ackTried := true }
  else if t.checkErr = -t.ENO_MSG_AVAIL then
    let a := t.ack s.data
    { err := a.1, sys := { s with data := a.2 }, thrown := [], ackTried := true }
  else
    { err := t.checkErr, sys := s, thrown := [], ackTried := false }

/-- The six events of `enum MainStateEvents`. -/
def mainEvents : List Event :=
  [Event.FRAMESEQ_EVT, Event.FRAMEPAR_EVT, Event.IPC_GET_APP_STATE_EVT,
    Event.IPC_GET_COLOR_IMG_EVT, Event.IPC_GET_RAW_IMG_EVT, Event.IPC_SET_CAPTURE_MODE_EVT]

/-- One event thrown into the state machine, with the boolean the request
buffer holds at that moment. -/
def stepEvent (o : Oscar) (s : Sys) (x : Event × Bool) : Sys :=
  ThrowEvent o (setReqFlag s x.2) x.1

/-- The state reached from the start by a finite sequence of events. -/
def runEvents (o : Oscar) (s0 : Sys) (evs : List (Event × Bool)) : Sys :=
  evs.foldl (stepEvent o) (HsmOnStart o s0)

/-- The snapshot's mode that belongs to a substate. -/
def modeOf : StateId → Option EnAppMode
  | StateId.top => none
  | StateId.captureRaw => some EnAppMode.APP_CAPTURE_RAW
  | StateId.captureColor => some EnAppMode.APP_CAPTURE_COLOR

/-- No transition is pending, one of the two substates is active, and the mode
of the snapshot is the one of the active substate. -/
def ModeInv (s : Sys) : Prop :=
  s.next = none ∧
    ((s.curr = StateId.captureRaw ∧ s.data.state.enAppMode = EnAppMode.APP_CAPTURE_RAW) ∨
      (s.curr = StateId.captureColor ∧
        s.data.state.enAppMode = EnAppMode.APP_CAPTURE_COLOR))

/-- An example state with capture-color active and a raw frame in the primary
frame buffer that has one bright pixel, at index 5. -/
def sysColorFrame : Sys :=
  { curr := StateId.captureColor, next := none,
    data := { dataZero with u8FrameBuffers := fun _ => imgSingle 5 } }

/-- An example transport with the error code `ENO_MSG_AVAIL = 5`, the given
status and parameter id, payload false, and an acknowledge that succeeds and
resets the pending request to idle. -/
def transportStub (checkErr : Int) (p : ParamId) : Transport :=
  { ENO_MSG_AVAIL := 5, checkErr := checkErr, paramId := p, payload := false,
    ack := fun d => (0, { d with enReqState := EnRequestState.REQ_STATE_IDLE }) }

/-- An example transport that reports a set-capture-mode request with the
payload `b`; the rest is as in `transportStub`. -/
def transportSetMode (b : Bool) : Transport :=
  { transportStub SUCCESS ParamId.SET_CAPTURE_MODE with payload := b }

end EBV2013

namespace EBV2013

/-! ## Rounding: examples and the nearest-integer property -/

namespace F32

/-- `2^24 + 1` lies half-way between two `float` values and goes to the even
mantissa below. -/
theorem ofInt_tie_down : ofInt 16777217 = fin false 8388608 1 := by decide

/-- `2^24 + 3` lies half-way between two `float` values and goes to the even
mantissa above. -/
theorem ofInt_tie_up : ofInt 16777219 = fin false 8388610 1 := by decide

/-- `1.0f / 3.0f` is `0x3eaaaaab`. -/
theorem div_one_three : div (ofInt 1) (ofInt 3) = fin false 11184811 (-25) := by decide

/-- `0.0f / 0.0f` is not-a-number and `1.0f / 0.0f` is `+inf`. -/
theorem div_by_zero : div (ofInt 0) (ofInt 0) = nan ∧ div (ofInt 1) (ofInt 0) = inf false := by
  decide

/-- The mantissa chosen by the rounding is within half a unit of the exact
quotient. -/
theorem mantissa_nearest (n d : Nat) (x q : Int) (hd : d ≠ 0) :
    2 * ((mantissa n d x q : Int) * ((d * 2 ^ (q - x).toNat : Nat) : Int) -
      ((n * 2 ^ (x - q).toNat : Nat) : Int)).natAbs ≤ d * 2 ^ (q - x).toNat := by
  have hden : 0 < d * 2 ^ (q - x).toNat := by positivity
  unfold mantissa
  simp only
  generalize d * 2 ^ (q - x).toNat = den at hden ⊢
  generalize n * 2 ^ (x - q).toNat = num
  have h1 := Nat.div_add_mod num den
  have h2 := Nat.mod_lt num hden
  generalize num / den = k at h1 ⊢
  generalize num % den = r at h1 h2 ⊢
  have hk : (k : Int) * (den : Int) = ((den * k : Nat) : Int) := by
    push_cast
    ring
  have hk1 : ((k + 1 : Nat) : Int) * (den : Int) = ((den * k : Nat) : Int) + (den : Int) := by
    push_cast
    ring
  generalize den * k = p at h1 hk hk1
  split_ifs
  · rw [hk]
    omega
  · rw [hk]
    omega
  · rw [hk1]
    omega

end F32
end EBV2013

namespace EBV2013

/-! ## Properties of the floating-point operations -/

namespace F32

theorem ilog2Aux_spec (fuel : Nat) : ∀ n : Nat, n ≤ fuel → n ≠ 0 →
    2 ^ ilog2Aux fuel n ≤ n ∧ n < 2 ^ (ilog2Aux fuel n + 1) := by
  induction fuel with
  | zero => intro n h1 h2; omega
  | succ f ih =>
    intro n h1 h2
    unfold ilog2Aux
    by_cases h : n < 2
    · have : n = 1 := by omega
      subst this
      simp
    · simp only [h, if_false]
      have h3 := ih (n / 2) (by omega) (by omega)
      obtain ⟨h4, h5⟩ := h3
      constructor
      · rw [pow_succ]
        have := Nat.div_mul_le_self n 2
        nlinarith
      · rw [pow_succ]
        have : n < (n / 2 + 1) * 2 := by omega
        nlinarith

theorem ilog2_le (n : Nat) (h : n ≠ 0) : 2 ^ ilog2 n ≤ n :=
  (ilog2Aux_spec n n (le_refl n) h).1

theorem ilog2_lt_of_lt (n k : Nat) (h : n ≠ 0) (hk : n < 2 ^ k) : ilog2 n < k := by
  have h1 := ilog2_le n h
  have h2 : 2 ^ ilog2 n < 2 ^ k := lt_of_le_of_lt h1 hk
  exact (Nat.pow_lt_pow_iff_right (by norm_num)).1 h2

theorem ilog2_one : ilog2 1 = 0 := by decide

theorem round_ne_nan (s : Bool) (n d : Nat) (x : Int) : round s n d x ≠ nan := by
  unfold round
  split_ifs <;> simp

theorem round_cases (s : Bool) (n d : Nat) (x : Int) :
    round s n d x = inf s ∨ ∃ m e, round s n d x = fin s m e := by
  unfold round
  split_ifs <;> simp

theorem round_zero (s : Bool) (d : Nat) (x : Int) : round s 0 d x = fin s 0 0 := by
  simp [round]

theorem quantum_le (n d : Nat) (x : Int) :
    quantum n d x ≤ max ((ilog2 n : Int) - (ilog2 d : Int) + x) (-126) - 23 := by
  unfold quantum
  simp only
  split_ifs
  · exact le_refl _
  · have : max ((ilog2 n : Int) - (ilog2 d : Int) + x - 1) (-126)
        ≤ max ((ilog2 n : Int) - (ilog2 d : Int) + x) (-126) :=
      max_le_max (by omega) (le_refl _)
    omega

/-- A value whose leading bit lies below `2^127` rounds to a finite `float`. -/
theorem round_fin (s : Bool) (n d : Nat) (x : Int)
    (hb : (ilog2 n : Int) - (ilog2 d : Int) + x ≤ 126) :
    ∃ m e, round s n d x = fin s m e := by
  have hq := quantum_le n d x
  have hq2 : quantum n d x ≤ 103 := by
    have : max ((ilog2 n : Int) - (ilog2 d : Int) + x) (-126) ≤ 126 := max_le hb (by norm_num)
    omega
  unfold round
  by_cases hn : n = 0
  · simp [hn]
  · rw [if_neg hn, if_neg (by omega)]
    exact ⟨_, _, rfl⟩

theorem mantissa_ge (n d : Nat) (x q : Int) :
    n * 2 ^ (x - q).toNat / (d * 2 ^ (q - x).toNat) ≤ mantissa n d x q := by
  unfold mantissa
  simp only
  split_ifs <;> omega

theorem mantissa_le (n d : Nat) (x q : Int) :
    mantissa n d x q ≤ n * 2 ^ (x - q).toNat / (d * 2 ^ (q - x).toNat) + 1 := by
  unfold mantissa
  simp only
  split_ifs <;> omega

end F32
end EBV2013

namespace EBV2013
namespace F32

theorem ofInt_zero : ofInt 0 = fin false 0 0 := by decide

theorem quantum_int (n : Nat) (hn : n ≠ 0) : quantum n 1 0 = (ilog2 n : Int) - 23 := by
  unfold quantum
  have h := ilog2_le n hn
  simp only [ilog2_one, pow_zero, mul_one, one_mul, if_pos h]
  have : max ((ilog2 n : Int) - ((0 : Nat) : Int) + 0) (-126) = (ilog2 n : Int) := by
    apply max_eq_left
    omega
  rw [this]

/-- The conversion of a non-zero 32-bit integer is finite, keeps the sign and
has a non-zero mantissa. -/
theorem ofInt_spec (i : Int) (h0 : i ≠ 0) (hb : i.natAbs < 2 ^ 32) :
    ∃ m e, ofInt i = fin (decide (i < 0)) m e ∧ m ≠ 0 ∧ m < 2 ^ 56 ∧ -23 ≤ e ∧ e ≤ 8 := by
  have hn : i.natAbs ≠ 0 := by simpa using h0
  have hL : ilog2 i.natAbs < 32 := ilog2_lt_of_lt _ _ hn hb
  have hle := ilog2_le _ hn
  have hq := quantum_int _ hn
  refine ⟨mantissa i.natAbs 1 0 (quantum i.natAbs 1 0), quantum i.natAbs 1 0, ?_, ?_, ?_, ?_, ?_⟩
  · unfold ofInt round
    rw [if_neg hn, if_neg (by omega)]
  · have h1 := mantissa_ge i.natAbs 1 0 (quantum i.natAbs 1 0)
    have hden : 1 * 2 ^ (quantum i.natAbs 1 0 - 0).toNat ≤ i.natAbs * 2 ^ (0 - quantum i.natAbs 1 0).toNat := by
      have ha : (quantum i.natAbs 1 0 - 0).toNat ≤ ilog2 i.natAbs := by omega
      have h2 : 2 ^ (quantum i.natAbs 1 0 - 0).toNat ≤ 2 ^ ilog2 i.natAbs :=
        Nat.pow_le_pow_right (by norm_num) ha
      have h3 : 1 ≤ 2 ^ (0 - quantum i.natAbs 1 0).toNat := Nat.one_le_two_pow
      calc 1 * 2 ^ (quantum i.natAbs 1 0 - 0).toNat ≤ 2 ^ ilog2 i.natAbs := by omega
        _ ≤ i.natAbs * 1 := by omega
        _ ≤ i.natAbs * 2 ^ (0 - quantum i.natAbs 1 0).toNat := Nat.mul_le_mul_left _ h3
    have hpos : 0 < 1 * 2 ^ (quantum i.natAbs 1 0 - 0).toNat := by positivity
    have := Nat.div_pos hden hpos
    omega
  · have h1 := mantissa_le i.natAbs 1 0 (quantum i.natAbs 1 0)
    have h2 : i.natAbs * 2 ^ (0 - quantum i.natAbs 1 0).toNat / (1 * 2 ^ (quantum i.natAbs 1 0 - 0).toNat)
        ≤ i.natAbs * 2 ^ (0 - quantum i.natAbs 1 0).toNat := Nat.div_le_self _ _
    have hb2 : (0 - quantum i.natAbs 1 0).toNat ≤ 23 := by omega
    have h3 : 2 ^ (0 - quantum i.natAbs 1 0).toNat ≤ 2 ^ 23 := Nat.pow_le_pow_right (by norm_num) hb2
    have h4 : i.natAbs * 2 ^ (0 - quantum i.natAbs 1 0).toNat ≤ 2 ^ 32 * 2 ^ 23 :=
      Nat.mul_le_mul (le_of_lt hb) h3
    have h5 : (2 : Nat) ^ 32 * 2 ^ 23 + 1 < 2 ^ 56 := by norm_num
    omega
  · omega
  · omega

/-- The quotient of two finite values of moderate size is finite. -/
theorem div_fin (s t : Bool) (m n : Nat) (e f : Int) (hn : n ≠ 0)
    (hm : m < 2 ^ 56) (he : e ≤ 8) (hf : -23 ≤ f) :
    ∃ M q, div (fin s m e) (fin t n f) = fin (xor s t) M q := by
  have hdiv : div (fin s m e) (fin t n f) = round (xor s t) m n (e - f) := by
    simp [div, hn]
  rw [hdiv]
  apply round_fin
  by_cases h0 : m = 0
  · subst h0
    have : ilog2 0 = 0 := by decide
    rw [this]
    omega
  · have := ilog2_lt_of_lt m 56 h0 hm
    omega

theorem add_fin_cases (s t : Bool) (m n : Nat) (e f : Int) :
    (∃ u, add (fin s m e) (fin t n f) = inf u) ∨
      ∃ u M q, add (fin s m e) (fin t n f) = fin u M q := by
  unfold add
  simp only
  split_ifs
  · exact Or.inr ⟨_, _, _, rfl⟩
  · rcases round_cases (decide (scaled s m e (min e f) + scaled t n f (min e f) < 0))
      (scaled s m e (min e f) + scaled t n f (min e f)).natAbs 1 (min e f) with h | ⟨M, q, h⟩
    · exact Or.inl ⟨_, h⟩
    · exact Or.inr ⟨_, M, q, h⟩

theorem ge_zero_of_nonNeg (x : F32) (h : NonNeg x) : ge x zero = true := by
  rcases h with h | ⟨m, e, h⟩
  · subst h; rfl
  · subst h
    simp [ge, zero, scaled]

theorem ne_nan_of_nonNeg (x : F32) (h : NonNeg x) : x ≠ nan := by
  rcases h with h | ⟨m, e, h⟩ <;> subst h <;> simp

/-- The product `(w * d) * d` of a positive finite `w` with a square is never
not-a-number and never negative. -/
theorem mul_mul_self_nonNeg (mw : Nat) (ew : Int) (hw : mw ≠ 0) (d : F32) (hd : d ≠ nan) :
    NonNeg (mul (mul (fin false mw ew) d) d) := by
  cases d with
  | nan => exact absurd rfl hd
  | inf u =>
    left
    simp [mul, hw]
  | fin u M q =>
    have h1 : mul (fin false mw ew) (fin u M q) = round u (mw * M) 1 (ew + q) := by
      simp [mul]
    rw [h1]
    by_cases hM : M = 0
    · subst hM
      right
      simp [mul, round_zero]
    · rcases round_cases u (mw * M) 1 (ew + q) with h | ⟨M2, q2, h⟩
      · rw [h]
        left
        simp [mul, hM]
      · rw [h]
        simp only [mul, Bool.xor_self]
        rcases round_cases false (M2 * M) 1 (q2 + q) with h2 | ⟨M3, q3, h2⟩
        · left; exact h2
        · right; exact ⟨M3, q3, h2⟩

end F32
end EBV2013

namespace EBV2013
namespace F32

theorem scaled_cast (s : Bool) (m : Nat) (e q : Int) (hq : q ≤ e) :
    ((scaled s m e q : Int) : ℚ) * (2 : ℚ) ^ q = toRat (fin s m e) := by
  unfold scaled toRat
  have h2 : ((2 : ℚ) ^ (e - q).toNat) * (2 : ℚ) ^ q = (2 : ℚ) ^ e := by
    rw [← zpow_natCast, ← zpow_add₀ (by norm_num : (2 : ℚ) ≠ 0)]
    congr 1
    omega
  push_cast
  rw [← h2]
  rcases Bool.eq_false_or_eq_true s with hs | hs <;> subst hs <;> simp <;> ring

theorem ge_fin_iff (s t : Bool) (m n : Nat) (e f : Int) :
    ge (fin s m e) (fin t n f) = true ↔ toRat (fin t n f) ≤ toRat (fin s m e) := by
  have hp : (0 : ℚ) < (2 : ℚ) ^ (min e f) := by positivity
  rw [← scaled_cast s m e (min e f) (min_le_left _ _),
    ← scaled_cast t n f (min e f) (min_le_right _ _)]
  rw [mul_le_mul_right hp, Int.cast_le]
  simp [ge]

theorem ge_nan_left (x : F32) : ge nan x = false := by
  cases x <;> rfl

theorem ge_nan_right (x : F32) : ge x nan = false := by
  cases x <;> rfl

theorem ne_nan_of_ge {a b : F32} (h : ge a b = true) : a ≠ nan ∧ b ≠ nan := by
  constructor
  · rintro rfl
    rw [ge_nan_left] at h
    exact Bool.noConfusion h
  · rintro rfl
    rw [ge_nan_right] at h
    exact Bool.noConfusion h

theorem ge_refl (a : F32) (h : a ≠ nan) : ge a a = true := by
  cases a with
  | nan => exact absurd rfl h
  | inf s => cases s <;> rfl
  | fin s m e => rw [ge_fin_iff]

theorem ge_total (a b : F32) (ha : a ≠ nan) (hb : b ≠ nan) :
    ge a b = true ∨ ge b a = true := by
  cases a with
  | nan => exact absurd rfl ha
  | inf s =>
    cases b with
    | nan => exact absurd rfl hb
    | inf t => cases s <;> cases t <;> simp [ge]
    | fin t n f => cases s <;> simp [ge]
  | fin s m e =>
    cases b with
    | nan => exact absurd rfl hb
    | inf t => cases t <;> simp [ge]
    | fin t n f =>
      rw [ge_fin_iff, ge_fin_iff]
      exact le_total _ _

theorem ge_trans {a b c : F32} (h1 : ge a b = true) (h2 : ge b c = true) : ge a c = true := by
  cases a with
  | nan => rw [ge_nan_left] at h1; exact Bool.noConfusion h1
  | inf s =>
    cases b with
    | nan => rw [ge_nan_right] at h1; exact Bool.noConfusion h1
    | inf t =>
      cases c with
      | nan => rw [ge_nan_right] at h2; exact Bool.noConfusion h2
      | inf u => cases s <;> cases t <;> cases u <;> simp_all [ge]
      | fin u k g => cases s <;> cases t <;> simp_all [ge]
    | fin t n f =>
      cases c with
      | nan => rw [ge_nan_right] at h2; exact Bool.noConfusion h2
      | inf u => cases s <;> cases u <;> simp_all [ge]
      | fin u k g => cases s <;> simp_all [ge]
  | fin s m e =>
    cases b with
    | nan => rw [ge_nan_right] at h1; exact Bool.noConfusion h1
    | inf t =>
      cases c with
      | nan => rw [ge_nan_right] at h2; exact Bool.noConfusion h2
      | inf u => cases t <;> cases u <;> simp_all [ge]
      | fin u k g => cases t <;> simp_all [ge]
    | fin t n f =>
      cases c with
      | nan => rw [ge_nan_right] at h2; exact Bool.noConfusion h2
      | inf u => cases u <;> simp_all [ge]
      | fin u k g =>
        rw [ge_fin_iff] at h1 h2 ⊢
        exact le_trans h2 h1

end F32
end EBV2013

namespace EBV2013

/-! ## Properties of the accumulators of `otsuThreshold` -/

theorem toInt32_of_range (x : Int) (h1 : -2147483648 ≤ x) (h2 : x < 2147483648) :
    toInt32 x = x := by
  unfold toInt32
  omega

theorem toInt32_add_mod (a : Int) (n : Nat) :
    toInt32 (toInt32 a + ((n % 4294967296 : Nat) : Int)) = toInt32 (a + (n : Int)) := by
  unfold toInt32
  omega

theorem toInt32_natAbs_lt (x : Int) : (toInt32 x).natAbs < 2 ^ 32 := by
  unfold toInt32
  omega

theorem sumFrom_add (f : Nat → Nat) (n m : Nat) :
    ∀ a, sumFrom f a (n + m) = sumFrom f a n + sumFrom f (a + n) m := by
  induction n with
  | zero => intro a; simp [sumFrom]
  | succ n ih =>
    intro a
    have h : n + 1 + m = (n + m) + 1 := by omega
    rw [h]
    simp only [sumFrom]
    rw [ih (a + 1)]
    have h2 : a + 1 + n = a + (n + 1) := by omega
    rw [h2]
    omega

theorem sumFrom_eq_zero (f : Nat → Nat) (n : Nat) :
    ∀ a, (∀ g, a ≤ g → g < a + n → f g = 0) → sumFrom f a n = 0 := by
  induction n with
  | zero => intro a _; rfl
  | succ n ih =>
    intro a h
    simp only [sumFrom]
    rw [h a (le_refl a) (by omega), ih (a + 1) (fun g h1 h2 => h g (by omega) (by omega))]

theorem sumFrom_pos (f : Nat → Nat) (n : Nat) :
    ∀ a g, a ≤ g → g < a + n → f g ≠ 0 → 0 < sumFrom f a n := by
  induction n with
  | zero => intro a g h1 h2; omega
  | succ n ih =>
    intro a g h1 h2 h3
    simp only [sumFrom]
    by_cases h : g = a
    · subst h
      omega
    · have := ih (a + 1) g (by omega) (by omega) h3
      omega

theorem sumFrom_exists (f : Nat → Nat) (n : Nat) :
    ∀ a, sumFrom f a n ≠ 0 → ∃ g, a ≤ g ∧ g < a + n ∧ f g ≠ 0 := by
  intro a h
  by_contra hc
  push_neg at hc
  exact h (sumFrom_eq_zero f n a hc)

theorem sumFrom_congr (f f2 : Nat → Nat) (n : Nat) :
    ∀ a, (∀ g, a ≤ g → g < a + n → f g = f2 g) → sumFrom f a n = sumFrom f2 a n := by
  induction n with
  | zero => intro a _; rfl
  | succ n ih =>
    intro a h
    simp only [sumFrom]
    rw [h a (le_refl a) (by omega), ih (a + 1) (fun g h1 h2 => h g (by omega) (by omega))]

theorem foldl_otsuAccum (hist : Nat → Nat) (n : Nat) :
    ∀ (a : Nat) (x y : Int),
      (List.range' a n).foldl (otsuAccum hist) ⟨toInt32 x, toInt32 y⟩ =
        ⟨toInt32 (x + (sumFrom hist a n : Int)),
          toInt32 (y + (sumFrom (fun g => hist g * g) a n : Int))⟩ := by
  induction n with
  | zero => intro a x y; simp [sumFrom]
  | succ n ih =>
    intro a x y
    rw [List.range'_succ, List.foldl_cons]
    have h : otsuAccum hist ⟨toInt32 x, toInt32 y⟩ a =
        ⟨toInt32 (x + (hist a : Int)), toInt32 (y + ((hist a * a : Nat) : Int))⟩ := by
      simp only [otsuAccum, toInt32_add_mod]
    rw [h, ih]
    simp only [sumFrom]
    push_cast
    congr 2 <;> ring

theorem otsuLow_eq (hist : Nat → Nat) (k : Nat) :
    otsuLow hist k = ⟨toInt32 (cntLow hist k), toInt32 (sumLow hist k)⟩ := by
  have h := foldl_otsuAccum hist k 0 0 0
  have h0 : toInt32 0 = 0 := by decide
  rw [h0] at h
  unfold otsuLow cntLow sumLow
  rw [List.range_eq_range', h]
  simp

theorem otsuHigh_eq (hist : Nat → Nat) (k : Nat) :
    otsuHigh hist k = ⟨toInt32 (cntHigh hist k), toInt32 (sumHigh hist k)⟩ := by
  have h := foldl_otsuAccum hist (256 - k) k 0 0
  have h0 : toInt32 0 = 0 := by decide
  rw [h0] at h
  unfold otsuHigh cntHigh sumHigh
  rw [h]
  simp

theorem cntLow_add_cntHigh (hist : Nat → Nat) (k : Nat) (hk : k ≤ 256) :
    cntLow hist k + cntHigh hist k = cntLow hist 256 := by
  unfold cntLow cntHigh
  have h := sumFrom_add hist k (256 - k) 0
  have h2 : k + (256 - k) = 256 := by omega
  rw [h2] at h
  simp only [zero_add] at h
  omega

theorem sumLow_add_sumHigh (hist : Nat → Nat) (k : Nat) (hk : k ≤ 256) :
    sumLow hist k + sumHigh hist k = sumLow hist 256 := by
  unfold sumLow sumHigh
  have h := sumFrom_add (fun g => hist g * g) k (256 - k) 0
  have h2 : k + (256 - k) = 256 := by omega
  rw [h2] at h
  simp only [zero_add] at h
  omega

end EBV2013

namespace EBV2013

/-! ## The score expression -/

theorem F32.ofInt_fin (i : Int) (hb : i.natAbs < 2 ^ 32) :
    ∃ s m e, F32.ofInt i = F32.fin s m e ∧ m < 2 ^ 56 ∧ e ≤ 8 ∧ -23 ≤ e := by
  by_cases h0 : i = 0
  · subst h0
    exact ⟨false, 0, 0, F32.ofInt_zero, by norm_num, by norm_num, by norm_num⟩
  · obtain ⟨m, e, h1, _, h3, h4, h5⟩ := F32.ofInt_spec i h0 hb
    exact ⟨_, m, e, h1, h3, h5, h4⟩

theorem F32.div_zero_cases (x : F32) :
    F32.div x (F32.fin false 0 0) = F32.nan ∨ ∃ s, F32.div x (F32.fin false 0 0) = F32.inf s := by
  cases x with
  | nan => left; rfl
  | inf s => right; exact ⟨_, rfl⟩
  | fin s m e =>
    by_cases h : m = 0
    · left; simp [F32.div, h]
    · right; exact ⟨xor s false, by simp [F32.div, h]⟩

theorem F32.add_nan_or_inf_left (a b : F32) (ha : a = F32.nan ∨ ∃ s, a = F32.inf s) :
    F32.add a b = F32.nan ∨ ∃ s, F32.add a b = F32.inf s := by
  rcases ha with ha | ⟨s, ha⟩
  · subst ha; left; cases b <;> rfl
  · subst ha
    cases b with
    | nan => left; rfl
    | inf t =>
      by_cases h : s = t
      · right; exact ⟨s, by simp [F32.add, h]⟩
      · left; simp [F32.add, h]
    | fin t n f => right; exact ⟨s, rfl⟩

theorem F32.add_nan_or_inf_right (a b : F32) (hb : b = F32.nan ∨ ∃ s, b = F32.inf s) :
    F32.add a b = F32.nan ∨ ∃ s, F32.add a b = F32.inf s := by
  rcases hb with hb | ⟨s, hb⟩
  · subst hb; left; cases a <;> rfl
  · subst hb
    cases a with
    | nan => left; rfl
    | inf t =>
      by_cases h : t = s
      · right; exact ⟨t, by simp [F32.add, h]⟩
      · left; simp [F32.add, h]
    | fin t n f => right; exact ⟨s, rfl⟩

theorem F32.neg_nan_or_inf (a : F32) (ha : a = F32.nan ∨ ∃ s, a = F32.inf s) :
    F32.neg a = F32.nan ∨ ∃ s, F32.neg a = F32.inf s := by
  rcases ha with ha | ⟨s, ha⟩
  · subst ha; left; rfl
  · subst ha; right; exact ⟨_, rfl⟩

theorem F32.zero_mul_nan_or_inf (d : F32) (hd : d = F32.nan ∨ ∃ s, d = F32.inf s) :
    F32.mul (F32.fin false 0 0) d = F32.nan := by
  rcases hd with hd | ⟨s, hd⟩ <;> subst hd <;> simp [F32.mul]

theorem F32.nan_mul (d : F32) : F32.mul F32.nan d = F32.nan := by
  cases d <;> rfl

/-- As soon as one of the two counts is `0`, the score is not-a-number: the
quotient with the zero denominator is `0/0` (or an infinity), and the factor
`w0*w1` is `0`. -/
theorem otsuScore_nan (w0 w1 m0 m1 : Int) (h : w0 = 0 ∨ w1 = 0) :
    otsuScore w0 w1 m0 m1 = F32.nan := by
  have hprod : toInt32 (w0 * w1) = 0 := by
    rcases h with h | h <;> subst h <;> simp <;> decide
  have hd : F32.sub (F32.div (F32.ofInt m0) (F32.ofInt w0))
      (F32.div (F32.ofInt m1) (F32.ofInt w1)) = F32.nan ∨
      ∃ s, F32.sub (F32.div (F32.ofInt m0) (F32.ofInt w0))
        (F32.div (F32.ofInt m1) (F32.ofInt w1)) = F32.inf s := by
    unfold F32.sub
    rcases h with h | h
    · subst h
      rw [F32.ofInt_zero]
      exact F32.add_nan_or_inf_left _ _ (F32.div_zero_cases _)
    · subst h
      rw [F32.ofInt_zero]
      exact F32.add_nan_or_inf_right _ _ (F32.neg_nan_or_inf _ (F32.div_zero_cases _))
  unfold otsuScore
  simp only
  rw [hprod, F32.ofInt_zero, F32.zero_mul_nan_or_inf _ hd, F32.nan_mul]

/-- With both counts positive and every quantity inside the `int` range, the
score is a number and is not negative. -/
theorem otsuScore_nonNeg (w0 w1 m0 m1 : Int) (hw0 : 0 < w0) (hw1 : 0 < w1)
    (hp : w0 * w1 < 2147483648) (hm0 : m0.natAbs < 2 ^ 32) (hm1 : m1.natAbs < 2 ^ 32) :
    F32.NonNeg (otsuScore w0 w1 m0 m1) := by
  have hw0b : w0 < 2147483648 := by nlinarith
  have hw1b : w1 < 2147483648 := by nlinarith
  obtain ⟨a0, e0, ha0, hane, _, hae, _⟩ := F32.ofInt_spec w0 (by omega) (by omega)
  obtain ⟨a1, e1, ha1, hane1, _, hae1, _⟩ := F32.ofInt_spec w1 (by omega) (by omega)
  obtain ⟨s0, b0, f0, hb0, hb0m, hb0e, _⟩ := F32.ofInt_fin m0 hm0
  obtain ⟨s1, b1, f1, hb1, hb1m, hb1e, _⟩ := F32.ofInt_fin m1 hm1
  have hpp : 0 < w0 * w1 := by positivity
  have hprod : toInt32 (w0 * w1) = w0 * w1 := toInt32_of_range _ (by omega) hp
  obtain ⟨mw, ew, hw, hwne, _, _, _⟩ := F32.ofInt_spec (w0 * w1) (by omega) (by omega)
  have hneg : decide (w0 * w1 < 0) = false := by simp; omega
  rw [hneg] at hw
  obtain ⟨M0, q0, hq0⟩ := F32.div_fin s0 (decide (w0 < 0)) b0 a0 f0 e0 hane hb0m hb0e hae
  obtain ⟨M1, q1, hq1⟩ := F32.div_fin s1 (decide (w1 < 0)) b1 a1 f1 e1 hane1 hb1m hb1e hae1
  unfold otsuScore
  simp only
  rw [hprod, hw, hb0, hb1, ha0, ha1, hq0, hq1]
  apply F32.mul_mul_self_nonNeg _ _ hwne
  unfold F32.sub F32.neg
  rcases F32.add_fin_cases (xor s0 (decide (w0 < 0))) (!(xor s1 (decide (w1 < 0)))) M0 M1 q0 q1
    with ⟨u, h⟩ | ⟨u, M, q, h⟩ <;> rw [h] <;> simp

end EBV2013

namespace EBV2013

/-! ## The candidates of `otsuThreshold` -/

theorem otsuScoreAt_nan (hist : Nat → Nat) (k : Nat)
    (h : (otsuLow hist k).w = 0 ∨ (otsuHigh hist k).w = 0) :
    otsuScoreAt hist k = F32.nan :=
  otsuScore_nan _ _ _ _ h

theorem otsuLow_exact (hist : Nat → Nat) (k : Nat) (hno : NoOverflow hist) (hk : k ≤ 256) :
    otsuLow hist k = ⟨(cntLow hist k : Int), (sumLow hist k : Int)⟩ := by
  have h1 := cntLow_add_cntHigh hist k hk
  have h2 := sumLow_add_sumHigh hist k hk
  obtain ⟨h3, h4, _⟩ := hno
  rw [otsuLow_eq, toInt32_of_range _ (by omega) (by omega),
    toInt32_of_range _ (by omega) (by omega)]

theorem otsuHigh_exact (hist : Nat → Nat) (k : Nat) (hno : NoOverflow hist) (hk : k ≤ 256) :
    otsuHigh hist k = ⟨(cntHigh hist k : Int), (sumHigh hist k : Int)⟩ := by
  have h1 := cntLow_add_cntHigh hist k hk
  have h2 := sumLow_add_sumHigh hist k hk
  obtain ⟨h3, h4, _⟩ := hno
  rw [otsuHigh_eq, toInt32_of_range _ (by omega) (by omega),
    toInt32_of_range _ (by omega) (by omega)]

theorem cntLow_ne_zero_iff (hist : Nat → Nat) (k : Nat) :
    cntLow hist k ≠ 0 ↔ ∃ g, g < k ∧ hist g ≠ 0 := by
  unfold cntLow
  constructor
  · intro h
    obtain ⟨g, _, h2, h3⟩ := sumFrom_exists hist k 0 h
    exact ⟨g, by omega, h3⟩
  · rintro ⟨g, h1, h2⟩
    have := sumFrom_pos hist k 0 g (Nat.zero_le g) (by omega) h2
    omega

theorem cntHigh_ne_zero_iff (hist : Nat → Nat) (k : Nat) :
    cntHigh hist k ≠ 0 ↔ ∃ g, k ≤ g ∧ g < 256 ∧ hist g ≠ 0 := by
  unfold cntHigh
  constructor
  · intro h
    obtain ⟨g, h1, h2, h3⟩ := sumFrom_exists hist (256 - k) k h
    exact ⟨g, h1, by omega, h3⟩
  · rintro ⟨g, h1, h2, h3⟩
    have := sumFrom_pos hist (256 - k) k g h1 (by omega) h3
    omega

/-- Inside the `int` range a candidate with two non-empty sides has a score
that is a number and is not negative. -/
theorem otsuScoreAt_nonNeg (hist : Nat → Nat) (k : Nat) (hno : NoOverflow hist) (hk : k < 256)
    (h0 : cntLow hist k ≠ 0) (h1 : cntHigh hist k ≠ 0) : F32.NonNeg (otsuScoreAt hist k) := by
  unfold otsuScoreAt
  rw [otsuLow_exact hist k hno (le_of_lt hk), otsuHigh_exact hist k hno (le_of_lt hk)]
  have h2 := sumLow_add_sumHigh hist k (le_of_lt hk)
  obtain ⟨h3, h4, h5⟩ := hno
  have h6 := h5 k hk
  apply otsuScore_nonNeg
  · simp only; omega
  · simp only; omega
  · simp only; exact_mod_cast h6
  · simp only [Int.natAbs_ofNat]; omega
  · simp only [Int.natAbs_ofNat]; omega

/-- Inside the `int` range the score of a candidate is a number exactly when
both sides of the partition are non-empty. -/
theorem otsuScoreAt_ne_nan_iff (hist : Nat → Nat) (k : Nat) (hno : NoOverflow hist)
    (hk : k < 256) :
    otsuScoreAt hist k ≠ F32.nan ↔ cntLow hist k ≠ 0 ∧ cntHigh hist k ≠ 0 := by
  constructor
  · intro h
    constructor
    · intro h0
      apply h
      apply otsuScoreAt_nan
      left
      rw [otsuLow_exact hist k hno (le_of_lt hk)]
      simp [h0]
    · intro h0
      apply h
      apply otsuScoreAt_nan
      right
      rw [otsuHigh_exact hist k hno (le_of_lt hk)]
      simp [h0]
  · rintro ⟨h0, h1⟩
    exact F32.ne_nan_of_nonNeg _ (otsuScoreAt_nonNeg hist k hno hk h0 h1)

/-! ## The outer loop -/

theorem otsuScan_succ (hist : Nat → Nat) (n : Nat) :
    otsuScan hist (n + 1) = otsuStep hist (otsuScan hist n) n := by
  simp [otsuScan, List.range_succ, List.foldl_append]

/-- A candidate whose score is not-a-number leaves the loop state as it is. -/
theorem otsuStep_nan (hist : Nat → Nat) (s : OtsuState) (k : Nat)
    (h : otsuScoreAt hist k = F32.nan) : otsuStep hist s k = s := by
  unfold otsuStep
  rw [h, F32.ge_nan_left]
  simp

/-- The loop invariant: either nothing has reached the initial best `0` yet, or
the best is the score of `kBest`, which dominates every score seen so far and
is not reached by any later candidate seen so far. -/
theorem otsuScan_inv (hist : Nat → Nat) : ∀ n,
    ((otsuScan hist n).best = F32.zero ∧ (otsuScan hist n).kBest = 0 ∧
        ∀ j, j < n → F32.ge (otsuScoreAt hist j) F32.zero = false) ∨
      ((otsuScan hist n).kBest < n ∧
        (otsuScan hist n).best = otsuScoreAt hist (otsuScan hist n).kBest ∧
        F32.ge (otsuScan hist n).best F32.zero = true ∧
        (∀ j, j < n → otsuScoreAt hist j ≠ F32.nan →
          F32.ge (otsuScan hist n).best (otsuScoreAt hist j) = true) ∧
        ∀ j, (otsuScan hist n).kBest < j → j < n →
          F32.ge (otsuScoreAt hist j) (otsuScan hist n).best = false) := by
  intro n
  induction n with
  | zero =>
    left
    refine ⟨rfl, rfl, ?_⟩
    intro j hj
    omega
  | succ n ih =>
    rw [otsuScan_succ]
    have hzero : F32.zero ≠ F32.nan := by decide
    by_cases hge : F32.ge (otsuScoreAt hist n) (otsuScan hist n).best = true
    · have hstep : otsuStep hist (otsuScan hist n) n =
          { best := otsuScoreAt hist n, kBest := n } := by
        unfold otsuStep
        rw [if_pos hge]
      rw [hstep]
      right
      have hnn := (F32.ne_nan_of_ge hge).1
      rcases ih with ⟨h1, _, h3⟩ | ⟨_, _, h3, h4, _⟩
      · rw [h1] at hge
        refine ⟨Nat.lt_succ_self n, rfl, hge, ?_, ?_⟩
        · intro j hj hjn
          by_cases hjeq : j = n
          · subst hjeq
            exact F32.ge_refl _ hnn
          · have h5 := h3 j (by omega)
            rcases F32.ge_total (otsuScoreAt hist j) F32.zero hjn hzero with h6 | h6
            · rw [h5] at h6
              exact Bool.noConfusion h6
            · exact F32.ge_trans hge h6
        · intro j hj1 hj2
          simp only at hj1
          omega
      · refine ⟨Nat.lt_succ_self n, rfl, F32.ge_trans hge h3, ?_, ?_⟩
        · intro j hj hjn
          by_cases hjeq : j = n
          · subst hjeq
            exact F32.ge_refl _ hnn
          · exact F32.ge_trans hge (h4 j (by omega) hjn)
        · intro j hj1 hj2
          simp only at hj1
          omega
    · have hstep : otsuStep hist (otsuScan hist n) n = otsuScan hist n := by
        unfold otsuStep
        rw [if_neg hge]
      rw [hstep]
      have hge2 : F32.ge (otsuScoreAt hist n) (otsuScan hist n).best = false := by
        simpa using hge
      rcases ih with ⟨h1, h2, h3⟩ | ⟨h1, h2, h3, h4, h5⟩
      · left
        refine ⟨h1, h2, ?_⟩
        intro j hj
        by_cases hjeq : j = n
        · subst hjeq
          rw [h1] at hge2
          exact hge2
        · exact h3 j (by omega)
      · right
        refine ⟨by omega, h2, h3, ?_, ?_⟩
        · intro j hj hjn
          by_cases hjeq : j = n
          · subst hjeq
            rcases F32.ge_total (otsuScoreAt hist j) (otsuScan hist j).best hjn
              (F32.ne_nan_of_ge h3).1 with h6 | h6
            · rw [hge2] at h6
              exact Bool.noConfusion h6
            · exact h6
          · exact h4 j (by omega) hjn
        · intro j hj1 hj2
          by_cases hjeq : j = n
          · subst hjeq
            exact hge2
          · exact h5 j hj1 (by omega)

theorem otsuBest_eq (hist : Nat → Nat) (n : Nat) : otsuBest hist n = (otsuScan hist n).kBest :=
  rfl

theorem otsuThreshold_eq (hist : Nat → Nat) (siz : Int) :
    otsuThreshold hist siz = (otsuScan hist 256).kBest :=
  otsuBest_eq hist 256

theorem otsuThreshold_lt (hist : Nat → Nat) (siz : Int) : otsuThreshold hist siz < 256 := by
  rw [otsuThreshold_eq]
  rcases otsuScan_inv hist 256 with ⟨_, h, _⟩ | ⟨h, _⟩
  · omega
  · exact h

/-- The level returned is a maximiser of the computed score, and no
maximiser is larger. -/
theorem otsuThreshold_best (hist : Nat → Nat) (siz : Int) (k : Nat) (hk : k < 256)
    (hz : F32.ge (otsuScoreAt hist k) F32.zero = true)
    (hmax : ∀ j, j < 256 → otsuScoreAt hist j ≠ F32.nan →
      F32.ge (otsuScoreAt hist k) (otsuScoreAt hist j) = true) :
    k ≤ otsuThreshold hist siz ∧
      F32.ge (otsuScoreAt hist (otsuThreshold hist siz)) F32.zero = true ∧
      ∀ j, j < 256 → otsuScoreAt hist j ≠ F32.nan →
        F32.ge (otsuScoreAt hist (otsuThreshold hist siz)) (otsuScoreAt hist j) = true := by
  rw [otsuThreshold_eq]
  rcases otsuScan_inv hist 256 with ⟨_, _, h3⟩ | ⟨h1, h2, h3, h4, h5⟩
  · rw [h3 k hk] at hz
    exact Bool.noConfusion hz
  · rw [h2] at h3 h4 h5
    refine ⟨?_, h3, h4⟩
    by_contra hlt
    have h6 := h5 k (by omega) hk
    rw [hmax _ h1 (F32.ne_nan_of_ge h3).1] at h6
    exact Bool.noConfusion h6

/-- A maximiser of the computed score that no later candidate reaches is the
level returned. -/
theorem otsuThreshold_eq_of (hist : Nat → Nat) (siz : Int) (k : Nat) (hk : k < 256)
    (hz : F32.ge (otsuScoreAt hist k) F32.zero = true)
    (hmax : ∀ j, j < 256 → otsuScoreAt hist j ≠ F32.nan →
      F32.ge (otsuScoreAt hist k) (otsuScoreAt hist j) = true)
    (hlast : ∀ j, k < j → j < 256 →
      F32.ge (otsuScoreAt hist j) (otsuScoreAt hist k) = false) :
    otsuThreshold hist siz = k := by
  obtain ⟨h1, h2, h3⟩ := otsuThreshold_best hist siz k hk hz hmax
  by_contra hne
  have hlt : k < otsuThreshold hist siz := by omega
  have h4 := hlast _ hlt (otsuThreshold_lt hist siz)
  rw [h3 k hk (F32.ne_nan_of_ge hz).1] at h4
  exact Bool.noConfusion h4

/-- When no candidate reaches the initial best, the initial `k_best = 0` is
returned. -/
theorem otsuThreshold_zero_of (hist : Nat → Nat) (siz : Int)
    (h : ∀ k, k < 256 → F32.ge (otsuScoreAt hist k) F32.zero = false) :
    otsuThreshold hist siz = 0 := by
  rw [otsuThreshold_eq]
  rcases otsuScan_inv hist 256 with ⟨_, h2, _⟩ | ⟨h1, h2, h3, _, _⟩
  · exact h2
  · rw [h2, h _ h1] at h3
    exact Bool.noConfusion h3

end EBV2013

namespace EBV2013

/-- As soon as one candidate reaches the initial best, the level returned is a
maximiser of the computed score. -/
theorem otsuThreshold_max_of_exists (hist : Nat → Nat) (siz : Int)
    (hex : ∃ k, k < 256 ∧ F32.ge (otsuScoreAt hist k) F32.zero = true) :
    otsuThreshold hist siz < 256 ∧
      F32.ge (otsuScoreAt hist (otsuThreshold hist siz)) F32.zero = true ∧
      ∀ j, j < 256 → otsuScoreAt hist j ≠ F32.nan →
        F32.ge (otsuScoreAt hist (otsuThreshold hist siz)) (otsuScoreAt hist j) = true := by
  obtain ⟨k, hk, hz⟩ := hex
  rw [otsuThreshold_eq]
  rcases otsuScan_inv hist 256 with ⟨_, _, h3⟩ | ⟨h1, h2, h3, h4, _⟩
  · rw [h3 k hk] at hz
    exact Bool.noConfusion hz
  · rw [h2] at h3 h4
    exact ⟨h1, h3, h4⟩

/-- Moving the candidate across empty levels does not change the score. -/
theorem otsuScoreAt_congr (hist : Nat → Nat) (j k : Nat) (hjk : j ≤ k) (hk : k ≤ 256)
    (hz : ∀ g, j ≤ g → g < k → hist g = 0) : otsuScoreAt hist j = otsuScoreAt hist k := by
  have e1 : k = j + (k - j) := by omega
  have e2 : 256 - j = (k - j) + (256 - k) := by omega
  have e3 : j + (k - j) = k := by omega
  have hc0 : sumFrom hist j (k - j) = 0 :=
    sumFrom_eq_zero hist (k - j) j (fun g h1 h2 => hz g h1 (by omega))
  have hs0 : sumFrom (fun g => hist g * g) j (k - j) = 0 :=
    sumFrom_eq_zero _ (k - j) j (fun g h1 h2 => by
      show hist g * g = 0
      rw [hz g h1 (by omega)]
      exact Nat.zero_mul g)
  have h1 : cntLow hist k = cntLow hist j := by
    unfold cntLow
    have h := sumFrom_add hist j (k - j) 0
    rw [e3] at h
    simp only [zero_add] at h
    omega
  have h2 : sumLow hist k = sumLow hist j := by
    unfold sumLow
    have h := sumFrom_add (fun g => hist g * g) j (k - j) 0
    rw [e3] at h
    simp only [zero_add] at h
    omega
  have h3 : cntHigh hist j = cntHigh hist k := by
    unfold cntHigh
    rw [e2, sumFrom_add hist (k - j) (256 - k) j, e3]
    omega
  have h4 : sumHigh hist j = sumHigh hist k := by
    unfold sumHigh
    rw [e2, sumFrom_add (fun g => hist g * g) (k - j) (256 - k) j, e3]
    omega
  unfold otsuScoreAt
  rw [otsuLow_eq, otsuHigh_eq, otsuLow_eq, otsuHigh_eq, h1, h2, h3, h4]

theorem otsuLow_w_zero (hist : Nat → Nat) (k : Nat) (h : ∀ g, g < k → hist g = 0) :
    (otsuLow hist k).w = 0 := by
  rw [otsuLow_eq]
  have h0 : cntLow hist k = 0 := sumFrom_eq_zero hist k 0 (fun g _ h2 => h g (by omega))
  rw [h0]
  show toInt32 ((0 : Nat) : Int) = 0
  decide

theorem otsuHigh_w_zero (hist : Nat → Nat) (k : Nat) (h : ∀ g, k ≤ g → g < 256 → hist g = 0) :
    (otsuHigh hist k).w = 0 := by
  rw [otsuHigh_eq]
  have h0 : cntHigh hist k = 0 :=
    sumFrom_eq_zero hist (256 - k) k (fun g h1 h2 => h g h1 (by omega))
  rw [h0]
  show toInt32 ((0 : Nat) : Int) = 0
  decide

/-- A histogram whose total count `n` has `n*n < 2^31` is inside the `int`
range. -/
theorem noOverflow_of_total (hist : Nat → Nat)
    (h1 : cntLow hist 256 * cntLow hist 256 < 2147483648) (h2 : sumLow hist 256 < 2147483648) :
    NoOverflow hist := by
  refine ⟨?_, h2, ?_⟩
  · nlinarith
  · intro k hk
    have h3 := cntLow_add_cntHigh hist k (le_of_lt hk)
    have h4 : cntLow hist k ≤ cntLow hist 256 := by omega
    have h5 : cntHigh hist k ≤ cntLow hist 256 := by omega
    calc cntLow hist k * cntHigh hist k ≤ cntLow hist 256 * cntLow hist 256 :=
          Nat.mul_le_mul h4 h5
      _ < 2147483648 := h1

/-- With two occupied levels `a < b` every candidate in `(a, b]` has the same
score, a number that is not negative, and every other candidate has the score
not-a-number. -/
theorem two_spikes_scores (hist : Nat → Nat) (a b : Nat) (hab : a < b) (hb : b < 256)
    (ha0 : hist a ≠ 0) (hb0 : hist b ≠ 0)
    (hz : ∀ g, g < 256 → g ≠ a → g ≠ b → hist g = 0) (hno : NoOverflow hist) :
    F32.ge (otsuScoreAt hist b) F32.zero = true ∧
      (∀ j, a < j → j ≤ b → otsuScoreAt hist j = otsuScoreAt hist b) ∧
      ∀ j, j < 256 → (j ≤ a ∨ b < j) → otsuScoreAt hist j = F32.nan := by
  refine ⟨?_, ?_, ?_⟩
  · apply F32.ge_zero_of_nonNeg
    apply otsuScoreAt_nonNeg hist b hno hb
    · exact (cntLow_ne_zero_iff hist b).2 ⟨a, hab, ha0⟩
    · exact (cntHigh_ne_zero_iff hist b).2 ⟨b, le_refl b, hb, hb0⟩
  · intro j h1 h2
    apply otsuScoreAt_congr hist j b h2 (le_of_lt hb)
    intro g h3 h4
    exact hz g (by omega) (by omega) (by omega)
  · intro j hj h
    apply otsuScoreAt_nan
    rcases h with h | h
    · left
      apply otsuLow_w_zero
      intro g hg
      exact hz g (by omega) (by omega) (by omega)
    · right
      apply otsuHigh_w_zero
      intro g h1 h2
      exact hz g h2 (by omega) (by omega)

/-- With two occupied levels `a < b` the level returned is `b`. -/
theorem otsuThreshold_two_spikes (hist : Nat → Nat) (siz : Int) (a b : Nat) (hab : a < b)
    (hb : b < 256) (ha0 : hist a ≠ 0) (hb0 : hist b ≠ 0)
    (hz : ∀ g, g < 256 → g ≠ a → g ≠ b → hist g = 0) (hno : NoOverflow hist) :
    otsuThreshold hist siz = b := by
  obtain ⟨h1, h2, h3⟩ := two_spikes_scores hist a b hab hb ha0 hb0 hz hno
  apply otsuThreshold_eq_of hist siz b hb h1
  · intro j hj hjn
    by_cases hc : a < j ∧ j ≤ b
    · rw [h2 j hc.1 hc.2]
      exact F32.ge_refl _ (F32.ne_nan_of_ge h1).1
    · exact absurd (h3 j hj (by omega)) hjn
  · intro j hj1 hj2
    rw [h3 j hj2 (Or.inr hj1)]
    exact F32.ge_nan_left _

theorem histTwoSpikes_noOverflow : NoOverflow histTwoSpikes := by
  apply noOverflow_of_total <;> decide!

theorem histTwoSpikes_zero (g : Nat) (h1 : g ≠ 50) (h2 : g ≠ 200) : histTwoSpikes g = 0 := by
  simp [histTwoSpikes, h1, h2]

theorem histNearTie_noOverflow : NoOverflow histNearTie := by
  apply noOverflow_of_total <;> decide!

theorem histNearTie_threshold : otsuThreshold histNearTie 0 = 254 := by
  have h254 : otsuScoreAt histNearTie 254 = F32.fin false 9193420 (-11) := by decide!
  have h255 : otsuScoreAt histNearTie 255 = F32.fin false 9193405 (-11) := by decide!
  have hlow : ∀ j, j ≤ 253 → otsuScoreAt histNearTie j = F32.nan := by
    intro j hj
    apply otsuScoreAt_nan
    left
    apply otsuLow_w_zero
    intro g hg
    have h1 : g ≠ 253 := by omega
    have h2 : g ≠ 254 := by omega
    have h3 : g ≠ 255 := by omega
    simp [histNearTie, h1, h2, h3]
  apply otsuThreshold_eq_of histNearTie 0 254 (by norm_num)
  · rw [h254]; decide
  · intro j hj hjn
    have hc : j ≤ 253 ∨ j = 254 ∨ j = 255 := by omega
    rcases hc with hc | hc | hc
    · exact absurd (hlow j hc) hjn
    · subst hc; rw [h254]; decide
    · subst hc; rw [h254, h255]; decide
  · intro j hj1 hj2
    have hc : j = 255 := by omega
    subst hc
    rw [h254, h255]
    decide

end EBV2013

namespace EBV2013

/-! ## The erosion and dilation loops -/

theorem setPx_apply (img : Img) (i v j : Nat) :
    setPx img i v j = if j = i then v else img j := rfl

/-- The inner loop writes `f` on the columns it visits and nothing else. -/
theorem rowWrite_apply (f : Nat → Nat) (r n : Nat) :
    ∀ (a : Nat) (img : Img) (j : Nat),
      ((List.range' a n).foldl (fun im c => setPx im (r + c) (f (r + c))) img) j =
        if r + a ≤ j ∧ j < r + a + n then f j else img j := by
  induction n with
  | zero =>
    intro a img j
    have : ¬ (r + a ≤ j ∧ j < r + a + 0) := by omega
    rw [if_neg this]
    rfl
  | succ n ih =>
    intro a img j
    rw [List.range'_succ, List.foldl_cons, ih (a + 1)]
    rw [setPx_apply]
    by_cases h1 : j = r + a
    · subst h1
      have h2 : ¬ (r + (a + 1) ≤ r + a ∧ r + a < r + (a + 1) + n) := by omega
      have h3 : r + a ≤ r + a ∧ r + a < r + a + (n + 1) := by omega
      simp [h2, h3]
    · by_cases h2 : r + (a + 1) ≤ j ∧ j < r + (a + 1) + n
      · have h3 : r + a ≤ j ∧ j < r + a + (n + 1) := by omega
        simp [h2, h3]
      · have h3 : ¬ (r + a ≤ j ∧ j < r + a + (n + 1)) := by omega
        simp [h1, h2, h3]

/-- The row loop writes `f` on every row it visits and nothing else. -/
theorem forRows_write_apply (nc limit : Nat) (f : Nat → Nat) (j : Nat) :
    ∀ (fuel r : Nat) (img : Img),
      (forRows nc limit
        (fun r img => (List.range' 1 (nc - 2)).foldl
          (fun im c => setPx im (r + c) (f (r + c))) img) fuel r img) j =
        if ∃ t, t < fuel ∧ r + t * nc < limit ∧ r + t * nc + 1 ≤ j ∧
            j < r + t * nc + 1 + (nc - 2)
        then f j else img j := by
  intro fuel
  induction fuel with
  | zero =>
    intro r img
    have : ¬ ∃ t, t < 0 ∧ r + t * nc < limit ∧ r + t * nc + 1 ≤ j ∧
        j < r + t * nc + 1 + (nc - 2) := by
      rintro ⟨t, h, _⟩
      omega
    simp [forRows, this]
  | succ fuel ih =>
    intro r img
    unfold forRows
    by_cases hr : r < limit
    · rw [if_pos hr, ih, rowWrite_apply]
      by_cases h1 : ∃ t, t < fuel ∧ r + nc + t * nc < limit ∧ r + nc + t * nc + 1 ≤ j ∧
          j < r + nc + t * nc + 1 + (nc - 2)
      · obtain ⟨t, h2, h3, h4, h5⟩ := h1
        have e : (t + 1) * nc = t * nc + nc := Nat.succ_mul t nc
        have h6 : ∃ t, t < fuel + 1 ∧ r + t * nc < limit ∧ r + t * nc + 1 ≤ j ∧
            j < r + t * nc + 1 + (nc - 2) := ⟨t + 1, by omega, by omega, by omega, by omega⟩
        rw [if_pos ⟨t, h2, h3, h4, h5⟩, if_pos h6]
      · rw [if_neg h1]
        by_cases h2 : r + 1 ≤ j ∧ j < r + 1 + (nc - 2)
        · have h6 : ∃ t, t < fuel + 1 ∧ r + t * nc < limit ∧ r + t * nc + 1 ≤ j ∧
              j < r + t * nc + 1 + (nc - 2) :=
            ⟨0, by omega, by simpa using hr, by simpa using h2.1, by simpa using h2.2⟩
          rw [if_pos h2, if_pos h6]
        · have h6 : ¬ ∃ t, t < fuel + 1 ∧ r + t * nc < limit ∧ r + t * nc + 1 ≤ j ∧
              j < r + t * nc + 1 + (nc - 2) := by
            rintro ⟨t, h3, h4, h5, h7⟩
            cases t with
            | zero =>
              apply h2
              simp only [Nat.zero_mul, Nat.add_zero] at h5 h7
              exact ⟨h5, h7⟩
            | succ t =>
              apply h1
              have e : (t + 1) * nc = t * nc + nc := Nat.succ_mul t nc
              exact ⟨t, by omega, by omega, by omega, by omega⟩
          rw [if_neg h2, if_neg h6]
    · rw [if_neg hr]
      have h6 : ¬ ∃ t, t < fuel + 1 ∧ r + t * nc < limit ∧ r + t * nc + 1 ≤ j ∧
          j < r + t * nc + 1 + (nc - 2) := by
        rintro ⟨t, _, h4, _, _⟩
        omega
      rw [if_neg h6]

/-- A pass writes `f` at the index of an interior pixel. -/
theorem morphPass_interior (nc height : Nat) (f : Nat → Nat) (dst : Img) (r c : Nat)
    (hr1 : 1 ≤ r) (hr2 : r + 2 ≤ height) (hc1 : 1 ≤ c) (hc2 : c + 2 ≤ nc) :
    morphPass nc (nc * height) f dst (r * nc + c) = f (r * nc + c) := by
  unfold morphPass
  rw [forRows_write_apply]
  have e1 : (r - 1) * nc + nc = r * nc := by
    have := Nat.succ_mul (r - 1) nc
    rw [Nat.succ_eq_add_one, Nat.sub_add_cancel hr1] at this
    omega
  have e2 : (r + 2) * nc ≤ height * nc := Nat.mul_le_mul_right nc hr2
  have e3 : (r + 2) * nc = r * nc + 2 * nc := by ring
  have e4 : nc * height = height * nc := Nat.mul_comm _ _
  have e5 : r ≤ r * nc := Nat.le_mul_of_pos_right r (by omega)
  have h : ∃ t, t < nc * height ∧ nc + t * nc < nc * height - nc ∧
      nc + t * nc + 1 ≤ r * nc + c ∧ r * nc + c < nc + t * nc + 1 + (nc - 2) :=
    ⟨r - 1, by omega, by omega, by omega, by omega⟩
  rw [if_pos h]

/-- A pass leaves the index of a border pixel as it was. -/
theorem morphPass_border (nc height : Nat) (f : Nat → Nat) (dst : Img) (r c : Nat)
    (hr : r < height) (hc : c < nc) (hb : onBorder nc height r c) :
    morphPass nc (nc * height) f dst (r * nc + c) = dst (r * nc + c) := by
  unfold morphPass
  rw [forRows_write_apply]
  have h : ¬ ∃ t, t < nc * height ∧ nc + t * nc < nc * height - nc ∧
      nc + t * nc + 1 ≤ r * nc + c ∧ r * nc + c < nc + t * nc + 1 + (nc - 2) := by
    rintro ⟨t, _, h2, h3, h4⟩
    have hrt : r = t + 1 := by
      by_contra hne
      rcases Nat.lt_or_ge r (t + 1) with h5 | h5
      · have h6 : r * nc ≤ t * nc := Nat.mul_le_mul_right nc (by omega)
        omega
      · have h6 : (t + 2) * nc ≤ r * nc := Nat.mul_le_mul_right nc (by omega)
        have e3 : (t + 2) * nc = t * nc + 2 * nc := by ring
        omega
    subst hrt
    have e1 : (t + 1) * nc = t * nc + nc := Nat.succ_mul t nc
    have h7 : t + 2 < height := by
      by_contra hge
      have h8 : height * nc ≤ (t + 2) * nc := Nat.mul_le_mul_right nc (by omega)
      have e3 : (t + 2) * nc = t * nc + 2 * nc := by ring
      have e4 : nc * height = height * nc := Nat.mul_comm _ _
      omega
    unfold onBorder at hb
    omega
  rw [if_neg h]

theorem and9_eq_and3x3 (nc : Nat) (src : Img) (r c : Nat) (hr1 : 1 ≤ r) (hc1 : 1 ≤ c)
    (hc2 : c + 2 ≤ nc) : and9 nc src (r * nc + c) = and3x3 src nc r c := by
  have e1 : (r - 1) * nc + nc = r * nc := by
    have := Nat.succ_mul (r - 1) nc
    rw [Nat.succ_eq_add_one, Nat.sub_add_cancel hr1] at this
    omega
  have e2 : (r + 1) * nc = r * nc + nc := Nat.succ_mul r nc
  unfold and9 and3x3 px
  have i1 : r * nc + c - nc - 1 = (r - 1) * nc + (c - 1) := by omega
  have i2 : r * nc + c - nc = (r - 1) * nc + c := by omega
  have i3 : r * nc + c - nc + 1 = (r - 1) * nc + (c + 1) := by omega
  have i4 : r * nc + c - 1 = r * nc + (c - 1) := by omega
  have i5 : r * nc + c + 1 = r * nc + (c + 1) := by omega
  have i6 : r * nc + c + nc - 1 = (r + 1) * nc + (c - 1) := by omega
  have i7 : r * nc + c + nc = (r + 1) * nc + c := by omega
  have i8 : r * nc + c + nc + 1 = (r + 1) * nc + (c + 1) := by omega
  rw [i1, i3, i2, i6, i8, i7, i4, i5]

theorem or9_eq_or3x3 (nc : Nat) (src : Img) (r c : Nat) (hr1 : 1 ≤ r) (hc1 : 1 ≤ c)
    (hc2 : c + 2 ≤ nc) : or9 nc src (r * nc + c) = or3x3 src nc r c := by
  have e1 : (r - 1) * nc + nc = r * nc := by
    have := Nat.succ_mul (r - 1) nc
    rw [Nat.succ_eq_add_one, Nat.sub_add_cancel hr1] at this
    omega
  have e2 : (r + 1) * nc = r * nc + nc := Nat.succ_mul r nc
  unfold or9 or3x3 px
  have i1 : r * nc + c - nc - 1 = (r - 1) * nc + (c - 1) := by omega
  have i2 : r * nc + c - nc = (r - 1) * nc + c := by omega
  have i3 : r * nc + c - nc + 1 = (r - 1) * nc + (c + 1) := by omega
  have i4 : r * nc + c - 1 = r * nc + (c - 1) := by omega
  have i5 : r * nc + c + 1 = r * nc + (c + 1) := by omega
  have i6 : r * nc + c + nc - 1 = (r + 1) * nc + (c - 1) := by omega
  have i7 : r * nc + c + nc = (r + 1) * nc + c := by omega
  have i8 : r * nc + c + nc + 1 = (r + 1) * nc + (c + 1) := by omega
  rw [i1, i3, i2, i6, i8, i7, i4, i5]

/-- Erosion at an interior pixel is the AND of its 3x3 neighbourhood in the
threshold image. -/
theorem erodePass_interior (nc height : Nat) (thr ero : Img) (r c : Nat)
    (hr1 : 1 ≤ r) (hr2 : r + 2 ≤ height) (hc1 : 1 ≤ c) (hc2 : c + 2 ≤ nc) :
    px (erodePass nc (nc * height) thr ero) nc r c = and3x3 thr nc r c := by
  unfold erodePass px
  rw [morphPass_interior nc height _ _ r c hr1 hr2 hc1 hc2, and9_eq_and3x3 nc thr r c hr1 hc1 hc2]

/-- Dilation at an interior pixel is the OR of its 3x3 neighbourhood in the
erosion image. -/
theorem dilatePass_interior (nc height : Nat) (ero dil : Img) (r c : Nat)
    (hr1 : 1 ≤ r) (hr2 : r + 2 ≤ height) (hc1 : 1 ≤ c) (hc2 : c + 2 ≤ nc) :
    px (dilatePass nc (nc * height) ero dil) nc r c = or3x3 ero nc r c := by
  unfold dilatePass px
  rw [morphPass_interior nc height _ _ r c hr1 hr2 hc1 hc2, or9_eq_or3x3 nc ero r c hr1 hc1 hc2]

end EBV2013

namespace EBV2013

/-! ## The histogram and binarisation loops -/

/-- A row loop whose inner loop visits the columns `[a, a+n)` writes `f` on
every row it visits and nothing else. -/
theorem forRows_write_gen (step limit a n : Nat) (f : Nat → Nat) (j : Nat) :
    ∀ (fuel r : Nat) (img : Img),
      (forRows step limit
        (fun r img => (List.range' a n).foldl
          (fun im c => setPx im (r + c) (f (r + c))) img) fuel r img) j =
        if ∃ t, t < fuel ∧ r + t * step < limit ∧ r + t * step + a ≤ j ∧
            j < r + t * step + a + n
        then f j else img j := by
  intro fuel
  induction fuel with
  | zero =>
    intro r img
    have : ¬ ∃ t, t < 0 ∧ r + t * step < limit ∧ r + t * step + a ≤ j ∧
        j < r + t * step + a + n := by
      rintro ⟨t, h, _⟩
      omega
    simp [forRows, this]
  | succ fuel ih =>
    intro r img
    unfold forRows
    by_cases hr : r < limit
    · rw [if_pos hr, ih, rowWrite_apply]
      by_cases h1 : ∃ t, t < fuel ∧ r + step + t * step < limit ∧ r + step + t * step + a ≤ j ∧
          j < r + step + t * step + a + n
      · obtain ⟨t, h2, h3, h4, h5⟩ := h1
        have e : (t + 1) * step = t * step + step := Nat.succ_mul t step
        have h6 : ∃ t, t < fuel + 1 ∧ r + t * step < limit ∧ r + t * step + a ≤ j ∧
            j < r + t * step + a + n := ⟨t + 1, by omega, by omega, by omega, by omega⟩
        rw [if_pos ⟨t, h2, h3, h4, h5⟩, if_pos h6]
      · rw [if_neg h1]
        by_cases h2 : r + a ≤ j ∧ j < r + a + n
        · have h6 : ∃ t, t < fuel + 1 ∧ r + t * step < limit ∧ r + t * step + a ≤ j ∧
              j < r + t * step + a + n :=
            ⟨0, by omega, by simpa using hr, by simpa using h2.1, by simpa using h2.2⟩
          rw [if_pos h2, if_pos h6]
        · have h6 : ¬ ∃ t, t < fuel + 1 ∧ r + t * step < limit ∧ r + t * step + a ≤ j ∧
              j < r + t * step + a + n := by
            rintro ⟨t, h3, h4, h5, h7⟩
            cases t with
            | zero =>
              apply h2
              simp only [Nat.zero_mul, Nat.add_zero] at h5 h7
              exact ⟨h5, h7⟩
            | succ t =>
              apply h1
              have e : (t + 1) * step = t * step + step := Nat.succ_mul t step
              exact ⟨t, by omega, by omega, by omega, by omega⟩
          rw [if_neg h2, if_neg h6]
    · rw [if_neg hr]
      have h6 : ¬ ∃ t, t < fuel + 1 ∧ r + t * step < limit ∧ r + t * step + a ≤ j ∧
          j < r + t * step + a + n := by
        rintro ⟨t, _, h4, _, _⟩
        omega
      rw [if_neg h6]

/-- After the binarisation loops every pixel of the image is `0` where the
grayscale pixel is below the threshold and `0xff` elsewhere. -/
theorem binarize_apply (nc height t : Nat) (gray thr : Img) (i : Nat) (hi : i < nc * height) :
    binarize nc (nc * height) t gray thr i = if gray i < t then 0 else 255 := by
  unfold binarize
  rw [List.range_eq_range']
  rw [forRows_write_gen nc (nc * height) 0 nc (fun k => if gray k < t then 0 else 255) i]
  have hnc : 0 < nc := by
    rcases Nat.eq_zero_or_pos nc with h | h
    · subst h
      simp at hi
    · exact h
  have h1 := Nat.div_add_mod i nc
  have h2 := Nat.mod_lt i hnc
  have e : i / nc * nc = nc * (i / nc) := Nat.mul_comm _ _
  have h3 : i / nc ≤ nc * (i / nc) := Nat.le_mul_of_pos_left _ hnc
  have hex : ∃ t, t < nc * height ∧ 0 + t * nc < nc * height ∧ 0 + t * nc + 0 ≤ i ∧
      i < 0 + t * nc + 0 + nc := ⟨i / nc, by omega, by omega, by omega, by omega⟩
  rw [if_pos hex]

theorem buildHist_succ (p : Img) (n : Nat) (v : Nat) :
    buildHist p (n + 1) v =
      if v = p n then (buildHist p n v + 1) % 4294967296 else buildHist p n v := by
  simp [buildHist, List.range_succ, List.foldl_append]

/-- A level with a non-zero count occurs in the image. -/
theorem buildHist_ne_zero (p : Img) (v : Nat) :
    ∀ n, buildHist p n v ≠ 0 → ∃ i, i < n ∧ p i = v := by
  intro n
  induction n with
  | zero =>
    intro h
    exact absurd rfl h
  | succ n ih =>
    intro h
    rw [buildHist_succ] at h
    by_cases hv : v = p n
    · exact ⟨n, Nat.lt_succ_self n, hv.symm⟩
    · rw [if_neg hv] at h
      obtain ⟨i, hi, hp⟩ := ih h
      exact ⟨i, by omega, hp⟩

/-! ## Bits of the 3x3 operators -/

/-- A bit of the AND over the neighbourhood of `(r2, c2)` is a bit of every
pixel of that neighbourhood. -/
theorem and3x3_testBit (img : Img) (nc r2 c2 r c k : Nat)
    (hr : r = r2 - 1 ∨ r = r2 ∨ r = r2 + 1) (hc : c = c2 - 1 ∨ c = c2 ∨ c = c2 + 1)
    (h : (and3x3 img nc r2 c2).testBit k = true) : (px img nc r c).testBit k = true := by
  unfold and3x3 at h
  simp only [Nat.testBit_land, Bool.and_eq_true] at h
  rcases hr with hr | hr | hr <;> rcases hc with hc | hc | hc <;> subst hr <;> subst hc <;>
    tauto

/-- A bit of the OR over the neighbourhood of `(r, c)` is a bit of some pixel
of that neighbourhood. -/
theorem or3x3_testBit (img : Img) (nc r c k : Nat)
    (h : (or3x3 img nc r c).testBit k = true) :
    ∃ r2 c2, (r2 = r - 1 ∨ r2 = r ∨ r2 = r + 1) ∧ (c2 = c - 1 ∨ c2 = c ∨ c2 = c + 1) ∧
      (px img nc r2 c2).testBit k = true := by
  unfold or3x3 at h
  simp only [Nat.testBit_lor, Bool.or_eq_true] at h
  rcases h with (((((((h | h) | h) | h) | h) | h) | h) | h) | h
  · exact ⟨r - 1, c - 1, Or.inl rfl, Or.inl rfl, h⟩
  · exact ⟨r - 1, c, Or.inl rfl, Or.inr (Or.inl rfl), h⟩
  · exact ⟨r - 1, c + 1, Or.inl rfl, Or.inr (Or.inr rfl), h⟩
  · exact ⟨r, c - 1, Or.inr (Or.inl rfl), Or.inl rfl, h⟩
  · exact ⟨r, c, Or.inr (Or.inl rfl), Or.inr (Or.inl rfl), h⟩
  · exact ⟨r, c + 1, Or.inr (Or.inl rfl), Or.inr (Or.inr rfl), h⟩
  · exact ⟨r + 1, c - 1, Or.inr (Or.inr rfl), Or.inl rfl, h⟩
  · exact ⟨r + 1, c, Or.inr (Or.inr rfl), Or.inr (Or.inl rfl), h⟩
  · exact ⟨r + 1, c + 1, Or.inr (Or.inr rfl), Or.inr (Or.inr rfl), h⟩

end EBV2013

namespace EBV2013

/-! ## Claims about `otsuThreshold` -/

/-- C1 (counterexample): for the histogram with 33 samples at level 253, one at
254 and 34 at 255 the `int` arithmetic does not overflow and level 255 has two
non-empty sides, yet `otsuThreshold` returns 254, whose exact score `157113/35`
is smaller than the exact score `4489` of level 255: the `float` scores of the
two levels are rounded to `9193420 * 2^-11` and `9193405 * 2^-11`. -/
theorem otsu_exact_maximum_counterexample :
    NoOverflow histNearTie ∧
      (cntLow histNearTie 255 ≠ 0 ∧ cntHigh histNearTie 255 ≠ 0) ∧
      otsuThreshold histNearTie 0 = 254 ∧
      otsuExactScore histNearTie (otsuThreshold histNearTie 0) <
        otsuExactScore histNearTie 255 := by
  refine ⟨histNearTie_noOverflow, ⟨by decide!, by decide!⟩, histNearTie_threshold, ?_⟩
  rw [histNearTie_threshold]
  have a1 : cntLow histNearTie 254 = 33 := by decide!
  have a2 : cntHigh histNearTie 254 = 35 := by decide!
  have a3 : sumLow histNearTie 254 = 8349 := by decide!
  have a4 : sumHigh histNearTie 254 = 8924 := by decide!
  have b1 : cntLow histNearTie 255 = 34 := by decide!
  have b2 : cntHigh histNearTie 255 = 34 := by decide!
  have b3 : sumLow histNearTie 255 = 8603 := by decide!
  have b4 : sumHigh histNearTie 255 = 8670 := by decide!
  unfold otsuExactScore
  rw [a1, a2, a3, a4, b1, b2, b3, b4]
  norm_num

/-- C1 (amended): for every histogram inside the `int` range that has a level
with two non-empty sides, `otsuThreshold` returns a level in `[0,255]` with two
non-empty sides whose score, as the code computes it in `float`, is greater
than or equal to the computed score of every level with two non-empty sides. -/
theorem otsu_maximises_computed_score (hist : Nat → Nat) (siz : Int) (hno : NoOverflow hist)
    (hex : ∃ k, k < 256 ∧ cntLow hist k ≠ 0 ∧ cntHigh hist k ≠ 0) :
    otsuThreshold hist siz < 256 ∧
      cntLow hist (otsuThreshold hist siz) ≠ 0 ∧ cntHigh hist (otsuThreshold hist siz) ≠ 0 ∧
      ∀ k, k < 256 → cntLow hist k ≠ 0 → cntHigh hist k ≠ 0 →
        F32.ge (otsuScoreAt hist (otsuThreshold hist siz)) (otsuScoreAt hist k) = true := by
  obtain ⟨k, hk, h0, h1⟩ := hex
  have hz := F32.ge_zero_of_nonNeg _ (otsuScoreAt_nonNeg hist k hno hk h0 h1)
  obtain ⟨r1, r2, r3⟩ := otsuThreshold_max_of_exists hist siz ⟨k, hk, hz⟩
  have hne := (otsuScoreAt_ne_nan_iff hist _ hno r1).1 (F32.ne_nan_of_ge r2).1
  refine ⟨r1, hne.1, hne.2, ?_⟩
  intro j hj hj0 hj1
  exact r3 j hj ((otsuScoreAt_ne_nan_iff hist j hno hj).2 ⟨hj0, hj1⟩)

/-- C1 (witness): the amended statement at the histogram of the
counterexample. -/
theorem otsu_maximises_computed_score_witness :
    NoOverflow histNearTie ∧
      (∃ k, k < 256 ∧ cntLow histNearTie k ≠ 0 ∧ cntHigh histNearTie k ≠ 0) ∧
      (otsuThreshold histNearTie 0 < 256 ∧
        cntLow histNearTie (otsuThreshold histNearTie 0) ≠ 0 ∧
        cntHigh histNearTie (otsuThreshold histNearTie 0) ≠ 0 ∧
        ∀ k, k < 256 → cntLow histNearTie k ≠ 0 → cntHigh histNearTie k ≠ 0 →
          F32.ge (otsuScoreAt histNearTie (otsuThreshold histNearTie 0))
            (otsuScoreAt histNearTie k) = true) :=
  ⟨histNearTie_noOverflow, ⟨255, by decide, by decide!, by decide!⟩,
    otsu_maximises_computed_score histNearTie 0 histNearTie_noOverflow
      ⟨255, by decide, by decide!, by decide!⟩⟩

/-- C2 (counterexample): for the histogram with one sample at level 50 and one
at level 200, `otsuThreshold` returns 200, which is not strictly between 50 and
200. -/
theorem otsu_two_spikes_counterexample :
    histTwoSpikes 50 = 1 ∧ histTwoSpikes 200 = 1 ∧
      otsuThreshold histTwoSpikes 0 = 200 ∧
      ¬ (50 < otsuThreshold histTwoSpikes 0 ∧ otsuThreshold histTwoSpikes 0 < 200) := by
  have h : otsuThreshold histTwoSpikes 0 = 200 :=
    otsuThreshold_two_spikes histTwoSpikes 0 50 200 (by decide) (by decide) (by decide)
      (by decide) (fun g _ h1 h2 => histTwoSpikes_zero g h1 h2) histTwoSpikes_noOverflow
  refine ⟨by decide, by decide, h, ?_⟩
  rw [h]
  decide

/-- C2 (amended): for every histogram inside the `int` range that is zero
everywhere except two levels `a < b` with positive counts, `otsuThreshold`
returns `b`: the threshold `k` satisfies `a < k ≤ b`, with `k = b`. -/
theorem otsu_two_spikes_returns_upper (hist : Nat → Nat) (siz : Int) (a b : Nat)
    (hab : a < b) (hb : b < 256) (ha0 : 0 < hist a) (hb0 : 0 < hist b)
    (hz : ∀ g, g < 256 → g ≠ a → g ≠ b → hist g = 0) (hno : NoOverflow hist) :
    otsuThreshold hist siz = b ∧ a < otsuThreshold hist siz ∧ otsuThreshold hist siz ≤ b := by
  have h := otsuThreshold_two_spikes hist siz a b hab hb (by omega) (by omega) hz hno
  rw [h]
  exact ⟨rfl, hab, le_refl b⟩

/-- C2 (witness): the amended statement for spikes at levels 50 and 200. -/
theorem otsu_two_spikes_returns_upper_witness :
    (50 < 200 ∧ 200 < 256 ∧ 0 < histTwoSpikes 50 ∧ 0 < histTwoSpikes 200 ∧
      (∀ g, g < 256 → g ≠ 50 → g ≠ 200 → histTwoSpikes g = 0) ∧ NoOverflow histTwoSpikes) ∧
      (otsuThreshold histTwoSpikes 0 = 200 ∧ 50 < otsuThreshold histTwoSpikes 0 ∧
        otsuThreshold histTwoSpikes 0 ≤ 200) :=
  ⟨⟨by decide, by decide, by decide, by decide,
      fun g _ h1 h2 => histTwoSpikes_zero g h1 h2, histTwoSpikes_noOverflow⟩,
    otsu_two_spikes_returns_upper histTwoSpikes 0 50 200 (by decide) (by decide) (by decide)
      (by decide) (fun g _ h1 h2 => histTwoSpikes_zero g h1 h2) histTwoSpikes_noOverflow⟩

/-- C3 (counterexample): with 46341 samples at level 0 and 46341 at level 255
the `int` product `w0*w1` overflows (the histogram is outside the `int` range)
and the score of every level from 1 to 255 is the same negative number, while
the score of level 0 is not-a-number. The levels 1 to 255 all attain the
maximum of the computed scores, yet none of them reaches the initial best
`0.0f`: `otsuThreshold` returns 0, not the largest of them, 255. -/
theorem otsu_tie_overflow_counterexample :
    ¬ NoOverflow histOverflow ∧
      otsuScoreAt histOverflow 255 ≠ F32.nan ∧
      (∀ j, 1 ≤ j → j < 256 → otsuScoreAt histOverflow j = otsuScoreAt histOverflow 255) ∧
      (∀ j, j < 256 → otsuScoreAt histOverflow j ≠ F32.nan →
        F32.ge (otsuScoreAt histOverflow 255) (otsuScoreAt histOverflow j) = true) ∧
      otsuThreshold histOverflow 0 = 0 ∧
      ¬ (255 ≤ otsuThreshold histOverflow 0) := by
  have h255 : otsuScoreAt histOverflow 255 = F32.fin true 16646364 23 := by decide!
  have hzero : ∀ g, 1 ≤ g → g < 255 → histOverflow g = 0 := by
    intro g h1 h2
    have e1 : g ≠ 0 := by omega
    have e2 : g ≠ 255 := by omega
    simp [histOverflow, e1, e2]
  have hsame : ∀ j, 1 ≤ j → j < 256 →
      otsuScoreAt histOverflow j = otsuScoreAt histOverflow 255 := by
    intro j h1 h2
    exact otsuScoreAt_congr histOverflow j 255 (by omega) (by omega)
      (fun g h3 h4 => hzero g (by omega) h4)
  have h0 : otsuScoreAt histOverflow 0 = F32.nan := by
    apply otsuScoreAt_nan
    left
    exact otsuLow_w_zero histOverflow 0 (fun g hg => absurd hg (Nat.not_lt_zero g))
  have hthr : otsuThreshold histOverflow 0 = 0 := by
    apply otsuThreshold_zero_of
    intro k hk
    by_cases hk0 : k = 0
    · subst hk0
      rw [h0]
      exact F32.ge_nan_left _
    · rw [hsame k (by omega) hk, h255]
      decide
  refine ⟨?_, ?_, hsame, ?_, hthr, ?_⟩
  · intro hno
    have h := hno.2.2 255 (by decide)
    have a1 : cntLow histOverflow 255 = 46341 := by decide!
    have a2 : cntHigh histOverflow 255 = 46341 := by decide!
    rw [a1, a2] at h
    exact absurd h (by decide)
  · rw [h255]
    exact F32.noConfusion
  · intro j hj hjn
    by_cases hj0 : j = 0
    · subst hj0
      exact absurd h0 hjn
    · rw [hsame j (by omega) hj, h255]
      decide
  · rw [hthr]
    decide

/-- C3 (amended): the loop visits the candidates in ascending order and replaces
the best whenever the new score is `>=` the current best, which starts at
`0.0f`. For every histogram inside the `int` range, whenever a level `k` attains
the maximum of the computed scores (its score is a number, and it is `>=` the
score of every level whose score is a number), the level returned attains that
maximum too and is not smaller than `k`: among the levels with the maximal
score the largest one is returned. -/
theorem otsu_tie_resolves_to_largest (hist : Nat → Nat) (siz : Int) (k : Nat)
    (hno : NoOverflow hist) (hk : k < 256) (hkn : otsuScoreAt hist k ≠ F32.nan)
    (hmax : ∀ j, j < 256 → otsuScoreAt hist j ≠ F32.nan →
      F32.ge (otsuScoreAt hist k) (otsuScoreAt hist j) = true) :
    (∀ n, otsuScan hist (n + 1) =
        if F32.ge (otsuScoreAt hist n) (otsuScan hist n).best = true
        then { best := otsuScoreAt hist n, kBest := n } else otsuScan hist n) ∧
      (otsuScan hist 0).best = F32.zero ∧
      k ≤ otsuThreshold hist siz ∧ otsuThreshold hist siz < 256 ∧
      F32.ge (otsuScoreAt hist (otsuThreshold hist siz)) (otsuScoreAt hist k) = true ∧
      ∀ j, j < 256 → otsuScoreAt hist j ≠ F32.nan →
        F32.ge (otsuScoreAt hist (otsuThreshold hist siz)) (otsuScoreAt hist j) = true := by
  have hne := (otsuScoreAt_ne_nan_iff hist k hno hk).1 hkn
  have hz := F32.ge_zero_of_nonNeg _ (otsuScoreAt_nonNeg hist k hno hk hne.1 hne.2)
  obtain ⟨h1, _, h3⟩ := otsuThreshold_best hist siz k hk hz hmax
  refine ⟨?_, rfl, h1, otsuThreshold_lt hist siz, h3 k hk hkn, h3⟩
  intro n
  rw [otsuScan_succ]
  rfl

/-- C3 (witness): with spikes at levels 50 and 200 every level in `(50, 200]`
attains the maximal score; for `k = 100` the level returned is not smaller. -/
theorem otsu_tie_resolves_to_largest_witness :
    (NoOverflow histTwoSpikes ∧ 100 < 256 ∧ otsuScoreAt histTwoSpikes 100 ≠ F32.nan ∧
      ∀ j, j < 256 → otsuScoreAt histTwoSpikes j ≠ F32.nan →
        F32.ge (otsuScoreAt histTwoSpikes 100) (otsuScoreAt histTwoSpikes j) = true) ∧
      100 ≤ otsuThreshold histTwoSpikes 0 := by
  obtain ⟨h1, h2, h3⟩ := two_spikes_scores histTwoSpikes 50 200 (by decide) (by decide)
    (by decide) (by decide) (fun g _ h1 h2 => histTwoSpikes_zero g h1 h2)
    histTwoSpikes_noOverflow
  have e := h2 100 (by decide) (by decide)
  have hkn : otsuScoreAt histTwoSpikes 100 ≠ F32.nan := by
    rw [e]
    exact (F32.ne_nan_of_ge h1).1
  have hmax : ∀ j, j < 256 → otsuScoreAt histTwoSpikes j ≠ F32.nan →
      F32.ge (otsuScoreAt histTwoSpikes 100) (otsuScoreAt histTwoSpikes j) = true := by
    intro j hj hjn
    by_cases hc : 50 < j ∧ j ≤ 200
    · rw [e, h2 j hc.1 hc.2]
      exact F32.ge_refl _ (F32.ne_nan_of_ge h1).1
    · exact absurd (h3 j hj (by omega)) hjn
  exact ⟨⟨histTwoSpikes_noOverflow, by decide, hkn, hmax⟩,
    (otsu_tie_resolves_to_largest histTwoSpikes 0 100 histTwoSpikes_noOverflow (by decide)
      hkn hmax).2.2.1⟩

/-- C4 (counterexample): nothing guards the divisions. For the histogram of no
samples, at candidate 0 the count `w0` is `0` and `0` is among the denominators
of the `float` divisions that are evaluated; the quotient `0/0` is
not-a-number. -/
theorem otsu_division_by_zero_counterexample :
    (otsuLow histEmpty 0).w = 0 ∧ (0 : Int) ∈ otsuDivisors histEmpty 0 ∧
      F32.div (F32.ofInt (otsuLow histEmpty 0).m) (F32.ofInt (otsuLow histEmpty 0).w) =
        F32.nan := by
  refine ⟨by decide, ?_, by decide⟩
  unfold otsuDivisors
  have h : (otsuLow histEmpty 0).w = 0 := by decide
  rw [h]
  exact List.mem_cons_self _ _

/-- C4 (amended): for every histogram, at every candidate `k` with `w0 == 0` or
`w1 == 0` the divisions are evaluated in `float` arithmetic, where they do not
trap: the score is not-a-number, the comparison `>=` fails and the candidate
leaves `k_best` and the best score untouched. The function returns a level in
`[0,255]`, and level `0` when every candidate has an empty side (the histogram
of no samples, a single spike). -/
theorem otsu_empty_partition_not_competitive (hist : Nat → Nat) (siz : Int) :
    otsuThreshold hist siz < 256 ∧
      (∀ k s, ((otsuLow hist k).w = 0 ∨ (otsuHigh hist k).w = 0) →
        otsuScoreAt hist k = F32.nan ∧ otsuStep hist s k = s) ∧
      ((∀ k, k < 256 → ((otsuLow hist k).w = 0 ∨ (otsuHigh hist k).w = 0)) →
        otsuThreshold hist siz = 0) := by
  refine ⟨otsuThreshold_lt hist siz, ?_, ?_⟩
  · intro k s h
    have h1 := otsuScoreAt_nan hist k h
    exact ⟨h1, otsuStep_nan hist s k h1⟩
  · intro h
    apply otsuThreshold_zero_of
    intro k hk
    rw [otsuScoreAt_nan hist k (h k hk)]
    exact F32.ge_nan_left _

/-- C4 (witness): the histogram of no samples has `w0 == 0` at every candidate,
and the level returned is `0`. -/
theorem otsu_empty_partition_not_competitive_witness :
    (∀ k, k < 256 → ((otsuLow histEmpty k).w = 0 ∨ (otsuHigh histEmpty k).w = 0)) ∧
      otsuThreshold histEmpty 0 = 0 :=
  ⟨fun k _ => Or.inl (otsuLow_w_zero histEmpty k (fun _ _ => rfl)),
    (otsu_empty_partition_not_competitive histEmpty 0).2.2
      (fun k _ => Or.inl (otsuLow_w_zero histEmpty k (fun _ _ => rfl)))⟩

end EBV2013

namespace EBV2013

/-! ## Claims about erosion and dilation -/

/-- C5: after the two passes of `ProcessFrame` on an image of `height` rows and
`nc` columns, at every pixel `(r,c)` with `1 <= r <= height-2` and
`1 <= c <= nc-2` the erosion buffer holds the bitwise AND of the nine pixels of
the 3x3 neighbourhood in the threshold image and the dilation buffer holds the
bitwise OR of the nine pixels of the 3x3 neighbourhood in the erosion buffer;
every pixel of row 0, row `height-1`, column 0 and column `nc-1` of both buffers
holds what it held before. -/
theorem erode_dilate_interior_and_border (nc height : Nat) (thr ero0 dil0 : Img) :
    (∀ r c, 1 ≤ r → r + 2 ≤ height → 1 ≤ c → c + 2 ≤ nc →
      px (erodePass nc (nc * height) thr ero0) nc r c = and3x3 thr nc r c ∧
      px (dilatePass nc (nc * height) (erodePass nc (nc * height) thr ero0) dil0) nc r c =
        or3x3 (erodePass nc (nc * height) thr ero0) nc r c) ∧
    (∀ r c, r < height → c < nc → onBorder nc height r c →
      px (erodePass nc (nc * height) thr ero0) nc r c = px ero0 nc r c ∧
      px (dilatePass nc (nc * height) (erodePass nc (nc * height) thr ero0) dil0) nc r c =
        px dil0 nc r c) := by
  constructor
  · intro r c hr1 hr2 hc1 hc2
    exact ⟨erodePass_interior nc height thr ero0 r c hr1 hr2 hc1 hc2,
      dilatePass_interior nc height _ dil0 r c hr1 hr2 hc1 hc2⟩
  · intro r c hr hc hb
    exact ⟨morphPass_border nc height _ ero0 r c hr hc hb,
      morphPass_border nc height _ dil0 r c hr hc hb⟩

/-- C5 (witness): a 4x4 image; the interior pixel `(1,1)` and the border pixel
`(0,3)`. -/
theorem erode_dilate_interior_and_border_witness :
    ((1 ≤ 1 ∧ 1 + 2 ≤ 4 ∧ 1 ≤ 1 ∧ 1 + 2 ≤ 4) ∧
      px (erodePass 4 (4 * 4) (imgSingle 5) imgBlank) 4 1 1 = and3x3 (imgSingle 5) 4 1 1) ∧
    ((0 < 4 ∧ 3 < 4 ∧ onBorder 4 4 0 3) ∧
      px (erodePass 4 (4 * 4) (imgSingle 5) imgBlank) 4 0 3 = px imgBlank 4 0 3) :=
  ⟨⟨⟨by decide, by decide, by decide, by decide⟩,
      ((erode_dilate_interior_and_border 4 4 (imgSingle 5) imgBlank imgBlank).1 1 1
        (by decide) (by decide) (by decide) (by decide)).1⟩,
    ⟨⟨by decide, by decide, Or.inl rfl⟩,
      ((erode_dilate_interior_and_border 4 4 (imgSingle 5) imgBlank imgBlank).2 0 3
        (by decide) (by decide) (Or.inl rfl)).1⟩⟩

theorem and3x3_single (nc height p : Nat) (thr : Img)
    (hthr : ∀ i, i < nc * height → i ≠ p → thr i = 0) (r c : Nat)
    (hr2 : r + 2 ≤ height) (hc2 : c + 2 ≤ nc) : and3x3 thr nc r c = 0 := by
  have e2 : (r + 2) * nc ≤ height * nc := Nat.mul_le_mul_right nc hr2
  have e3 : (r + 2) * nc = r * nc + 2 * nc := by ring
  have e4 : nc * height = height * nc := Nat.mul_comm _ _
  unfold and3x3 px
  by_cases h : r * nc + c = p
  · have h1 : thr (r * nc + (c + 1)) = 0 := hthr _ (by omega) (by omega)
    rw [h1]
    simp
  · have h1 : thr (r * nc + c) = 0 := hthr _ (by omega) h
    rw [h1]
    simp

/-- With at most one "on" pixel in the threshold image the erosion is "off" at
every interior pixel. -/
theorem erodePass_single (nc height p : Nat) (thr ero0 : Img)
    (hthr : ∀ i, i < nc * height → i ≠ p → thr i = 0) (r c : Nat)
    (hr1 : 1 ≤ r) (hr2 : r + 2 ≤ height) (hc1 : 1 ≤ c) (hc2 : c + 2 ≤ nc) :
    px (erodePass nc (nc * height) thr ero0) nc r c = 0 := by
  rw [erodePass_interior nc height thr ero0 r c hr1 hr2 hc1 hc2]
  exact and3x3_single nc height p thr hthr r c hr2 hc2

/-- C6 (counterexample): a 5x5 threshold image that is "on" at the single
interior pixel `(2,2)`, and an erosion buffer whose corner `(0,0)` still holds
`0xff` from before the pass: the dilation is "on" at the interior pixel
`(1,1)`. -/
theorem dilate_single_pixel_counterexample :
    imgSingle 12 (2 * 5 + 2) = 255 ∧ (∀ i, i ≠ 12 → imgSingle 12 i = 0) ∧
      px (erodePass 5 (5 * 5) (imgSingle 12) (imgSingle 0)) 5 1 1 = 0 ∧
      px (dilatePass 5 (5 * 5) (erodePass 5 (5 * 5) (imgSingle 12) (imgSingle 0)) imgBlank)
        5 1 1 = 255 := by
  refine ⟨by decide, ?_, by decide, by decide⟩
  intro i hi
  simp [imgSingle, hi]

/-- C6 (amended): when the threshold image is "off" everywhere except one pixel,
the erosion is "off" at every interior pixel; the dilation is "off" at every
pixel `(r,c)` with `2 <= r <= height-3` and `2 <= c <= nc-3`, and at every
interior pixel when the 1-pixel border of the erosion buffer was "off" before
the pass. -/
theorem erode_dilate_single_pixel (nc height p : Nat) (thr ero0 dil0 : Img)
    (hthr : ∀ i, i < nc * height → i ≠ p → thr i = 0) :
    (∀ r c, 1 ≤ r → r + 2 ≤ height → 1 ≤ c → c + 2 ≤ nc →
      px (erodePass nc (nc * height) thr ero0) nc r c = 0) ∧
    (∀ r c, 2 ≤ r → r + 3 ≤ height → 2 ≤ c → c + 3 ≤ nc →
      px (dilatePass nc (nc * height) (erodePass nc (nc * height) thr ero0) dil0) nc r c = 0) ∧
    ((∀ r c, r < height → c < nc → onBorder nc height r c → px ero0 nc r c = 0) →
      ∀ r c, 1 ≤ r → r + 2 ≤ height → 1 ≤ c → c + 2 ≤ nc →
        px (dilatePass nc (nc * height) (erodePass nc (nc * height) thr ero0) dil0) nc r c = 0) := by
  have hero := erodePass_single nc height p thr ero0 hthr
  refine ⟨hero, ?_, ?_⟩
  · intro r c hr1 hr2 hc1 hc2
    rw [dilatePass_interior nc height _ dil0 r c (by omega) (by omega) (by omega) (by omega)]
    unfold or3x3
    rw [hero (r - 1) (c - 1) (by omega) (by omega) (by omega) (by omega),
      hero (r - 1) c (by omega) (by omega) (by omega) (by omega),
      hero (r - 1) (c + 1) (by omega) (by omega) (by omega) (by omega),
      hero r (c - 1) (by omega) (by omega) (by omega) (by omega),
      hero r c (by omega) (by omega) (by omega) (by omega),
      hero r (c + 1) (by omega) (by omega) (by omega) (by omega),
      hero (r + 1) (c - 1) (by omega) (by omega) (by omega) (by omega),
      hero (r + 1) c (by omega) (by omega) (by omega) (by omega),
      hero (r + 1) (c + 1) (by omega) (by omega) (by omega) (by omega)]
    rfl
  · intro hb
    have hall : ∀ r c, r < height → c < nc →
        px (erodePass nc (nc * height) thr ero0) nc r c = 0 := by
      intro r c hr hc
      by_cases h : 1 ≤ r ∧ r + 2 ≤ height ∧ 1 ≤ c ∧ c + 2 ≤ nc
      · exact hero r c h.1 h.2.1 h.2.2.1 h.2.2.2
      · have hbd : onBorder nc height r c := by
          unfold onBorder
          omega
        have h1 : px (erodePass nc (nc * height) thr ero0) nc r c = px ero0 nc r c :=
          morphPass_border nc height _ ero0 r c hr hc hbd
        rw [h1]
        exact hb r c hr hc hbd
    intro r c hr1 hr2 hc1 hc2
    rw [dilatePass_interior nc height _ dil0 r c hr1 hr2 hc1 hc2]
    unfold or3x3
    rw [hall (r - 1) (c - 1) (by omega) (by omega), hall (r - 1) c (by omega) (by omega),
      hall (r - 1) (c + 1) (by omega) (by omega), hall r (c - 1) (by omega) (by omega),
      hall r c (by omega) (by omega), hall r (c + 1) (by omega) (by omega),
      hall (r + 1) (c - 1) (by omega) (by omega), hall (r + 1) c (by omega) (by omega),
      hall (r + 1) (c + 1) (by omega) (by omega)]
    rfl

/-- C6 (witness): the 5x5 image that is "on" at `(2,2)` only; the erosion is
"off" at the interior pixel `(2,2)`. -/
theorem erode_dilate_single_pixel_witness :
    (∀ i, i < 5 * 5 → i ≠ 12 → imgSingle 12 i = 0) ∧
      px (erodePass 5 (5 * 5) (imgSingle 12) (imgSingle 0)) 5 2 2 = 0 :=
  ⟨fun i _ hi => by simp [imgSingle, hi],
    (erode_dilate_single_pixel 5 5 12 (imgSingle 12) (imgSingle 0) imgBlank
      (fun i _ hi => by simp [imgSingle, hi])).1 2 2 (by decide) (by decide) (by decide)
      (by decide)⟩

end EBV2013

namespace EBV2013

/-! ## The annotator -/

/-- A loop that stores `color` at two indices per pass leaves `color` at every
index it touched and the old byte elsewhere. -/
theorem foldl_setPx2_apply (color : Nat) (f g : Nat → Nat) :
    ∀ (L : List Nat) (img : Img) (j : Nat),
      (L.foldl (fun im i => setPx (setPx im (f i) color) (g i) color) img) j =
        if ∃ i, i ∈ L ∧ (j = f i ∨ j = g i) then color else img j := by
  intro L
  induction L with
  | nil =>
    intro img j
    simp
  | cons a L ih =>
    intro img j
    rw [List.foldl_cons, ih]
    by_cases h1 : ∃ i, i ∈ L ∧ (j = f i ∨ j = g i)
    · obtain ⟨i, hi, hj⟩ := h1
      have h2 : ∃ i, i ∈ a :: L ∧ (j = f i ∨ j = g i) := ⟨i, List.mem_cons_of_mem a hi, hj⟩
      rw [if_pos ⟨i, hi, hj⟩, if_pos h2]
    · rw [if_neg h1]
      by_cases h3 : j = f a ∨ j = g a
      · have h2 : ∃ i, i ∈ a :: L ∧ (j = f i ∨ j = g i) := ⟨a, List.mem_cons_self a L, h3⟩
        rw [if_pos h2]
        simp only [setPx_apply]
        rcases h3 with h3 | h3
        · by_cases h4 : j = g a
          · rw [if_pos h4]
          · rw [if_neg h4, if_pos h3]
        · rw [if_pos h3]
      · have h2 : ¬ ∃ i, i ∈ a :: L ∧ (j = f i ∨ j = g i) := by
          rintro ⟨i, hi, hj⟩
          rcases List.mem_cons.1 hi with hi | hi
          · subst hi
            exact h3 hj
          · exact h1 ⟨i, hi, hj⟩
        rw [if_neg h2]
        simp only [setPx_apply]
        rw [if_neg (fun h => h3 (Or.inr h)), if_neg (fun h => h3 (Or.inl h))]

/-- The byte at every index after one box has been drawn. -/
theorem drawBox_apply (width color : Nat) (img : Img) (b : Box) (j : Nat) :
    (((∃ i, (b.left ≤ i ∧ i < b.right) ∧
            (j = width * b.top + i ∨ j = width * (b.bottom - 1) + i)) ∨
          (∃ i, (b.top ≤ i ∧ i < b.bottom - 1) ∧
            (j = width * i + b.left ∨ j = width * i + b.right))) →
        drawBox width color img b j = color) ∧
      (¬ ((∃ i, (b.left ≤ i ∧ i < b.right) ∧
            (j = width * b.top + i ∨ j = width * (b.bottom - 1) + i)) ∨
          (∃ i, (b.top ≤ i ∧ i < b.bottom - 1) ∧
            (j = width * i + b.left ∨ j = width * i + b.right))) →
        drawBox width color img b j = img j) := by
  have m1 : ∀ i, i ∈ List.range' b.left (b.right - b.left) ↔ b.left ≤ i ∧ i < b.right := by
    intro i
    rw [List.mem_range'_1]
    omega
  have m2 : ∀ i, i ∈ List.range' b.top (b.bottom - 1 - b.top) ↔
      b.top ≤ i ∧ i < b.bottom - 1 := by
    intro i
    rw [List.mem_range'_1]
    omega
  unfold drawBox
  rw [foldl_setPx2_apply, foldl_setPx2_apply]
  constructor
  · intro h
    by_cases h2 : ∃ i, i ∈ List.range' b.top (b.bottom - 1 - b.top) ∧
        (j = width * i + b.left ∨ j = width * i + b.right)
    · rw [if_pos h2]
    · rw [if_neg h2]
      rcases h with ⟨i, hi, hj⟩ | ⟨i, hi, hj⟩
      · rw [if_pos ⟨i, (m1 i).2 hi, hj⟩]
      · exact absurd ⟨i, (m2 i).2 hi, hj⟩ h2
  · intro h
    have h2 : ¬ ∃ i, i ∈ List.range' b.top (b.bottom - 1 - b.top) ∧
        (j = width * i + b.left ∨ j = width * i + b.right) := by
      rintro ⟨i, hi, hj⟩
      exact h (Or.inr ⟨i, (m2 i).1 hi, hj⟩)
    have h1 : ¬ ∃ i, i ∈ List.range' b.left (b.right - b.left) ∧
        (j = width * b.top + i ∨ j = width * (b.bottom - 1) + i) := by
      rintro ⟨i, hi, hj⟩
      exact h (Or.inl ⟨i, (m1 i).1 hi, hj⟩)
    rw [if_neg h2, if_neg h1]

/-- A flat index determines its row and its column. -/
theorem index_inj (width r c r2 c2 : Nat) (hc : c < width) (hc2 : c2 < width)
    (h : width * r + c = width * r2 + c2) : r = r2 ∧ c = c2 := by
  have hr : r = r2 := by
    by_contra hne
    rcases Nat.lt_or_ge r r2 with h1 | h1
    · have h2 : width * (r + 1) ≤ width * r2 := Nat.mul_le_mul_left width h1
      have e : width * (r + 1) = width * r + width := Nat.mul_succ width r
      omega
    · have h2 : width * (r2 + 1) ≤ width * r := Nat.mul_le_mul_left width (by omega)
      have e : width * (r2 + 1) = width * r2 + width := Nat.mul_succ width r2
      omega
  subst hr
  exact ⟨rfl, by omega⟩

/-- C7: for an image of width `W` and a single region with `bottom >= 1`,
`left < W` and `right < W`, `OscVisDrawBoundingBoxBW` stores `Color` at
exactly the pixels `(top, i)` and `(bottom-1, i)` for `left <= i < right` and
`(i, left)` and `(i, right)` for `top <= i < bottom-1`; every other pixel, in
particular every pixel strictly inside the box, keeps its byte. -/
theorem draw_bounding_box_exact (img : Img) (W : Nat) (b : Box) (color : Nat) (r c : Nat)
    (_hbot : 1 ≤ b.bottom) (hleft : b.left < W) (hright : b.right < W) (hc : c < W) :
    OscVisDrawBoundingBoxBW img W [b] color (W * r + c) =
      if onOutline b r c then color else img (W * r + c) := by
  unfold OscVisDrawBoundingBoxBW
  rw [List.foldl_cons, List.foldl_nil]
  obtain ⟨hdraw, hkeep⟩ := drawBox_apply W color img b (W * r + c)
  by_cases h : onOutline b r c
  · rw [if_pos h]
    unfold onOutline at h
    have hcond : (∃ i, (b.left ≤ i ∧ i < b.right) ∧
          (W * r + c = W * b.top + i ∨ W * r + c = W * (b.bottom - 1) + i)) ∨
        (∃ i, (b.top ≤ i ∧ i < b.bottom - 1) ∧
          (W * r + c = W * i + b.left ∨ W * r + c = W * i + b.right)) := by
      rcases h with ⟨h1, h2, h3⟩ | ⟨h1, h2, h3⟩
      · left
        refine ⟨c, ⟨h2, h3⟩, ?_⟩
        rcases h1 with h1 | h1
        · left; rw [h1]
        · right; rw [h1]
      · right
        refine ⟨r, ⟨h2, h3⟩, ?_⟩
        rcases h1 with h1 | h1
        · left; rw [h1]
        · right; rw [h1]
    exact hdraw hcond
  · rw [if_neg h]
    have hcond : ¬ ((∃ i, (b.left ≤ i ∧ i < b.right) ∧
          (W * r + c = W * b.top + i ∨ W * r + c = W * (b.bottom - 1) + i)) ∨
        (∃ i, (b.top ≤ i ∧ i < b.bottom - 1) ∧
          (W * r + c = W * i + b.left ∨ W * r + c = W * i + b.right))) := by
      intro hc2
      apply h
      unfold onOutline
      rcases hc2 with ⟨i, ⟨h1, h2⟩, h3⟩ | ⟨i, ⟨h1, h2⟩, h3⟩
      · left
        rcases h3 with h3 | h3
        · obtain ⟨e1, e2⟩ := index_inj W r c b.top i hc (by omega) h3
          exact ⟨Or.inl e1, by omega, by omega⟩
        · obtain ⟨e1, e2⟩ := index_inj W r c (b.bottom - 1) i hc (by omega) h3
          exact ⟨Or.inr e1, by omega, by omega⟩
      · right
        rcases h3 with h3 | h3
        · obtain ⟨e1, e2⟩ := index_inj W r c i b.left hc (by omega) h3
          exact ⟨Or.inl e2, by omega, by omega⟩
        · obtain ⟨e1, e2⟩ := index_inj W r c i b.right hc (by omega) h3
          exact ⟨Or.inr e2, by omega, by omega⟩
    exact hkeep hcond

/-- C7 (witness): the region `top=2, left=3, bottom=6, right=9` on an image of
width 12: the outline pixel `(5, 3)` receives the colour, the pixel `(3, 5)`
strictly inside the box keeps its byte. -/
theorem draw_bounding_box_exact_witness :
    (1 ≤ (Box.mk 2 3 6 9).bottom ∧ (Box.mk 2 3 6 9).left < 12 ∧
      (Box.mk 2 3 6 9).right < 12 ∧ 3 < 12 ∧ 5 < 12) ∧
      OscVisDrawBoundingBoxBW imgBlank 12 [Box.mk 2 3 6 9] 255 (12 * 5 + 3) = 255 ∧
      OscVisDrawBoundingBoxBW imgBlank 12 [Box.mk 2 3 6 9] 255 (12 * 3 + 5) = 0 := by
  refine ⟨⟨by decide, by decide, by decide, by decide, by decide⟩, ?_, ?_⟩
  · rw [draw_bounding_box_exact imgBlank 12 (Box.mk 2 3 6 9) 255 5 3 (by decide) (by decide)
      (by decide) (by decide)]
    decide
  · rw [draw_bounding_box_exact imgBlank 12 (Box.mk 2 3 6 9) 255 3 5 (by decide) (by decide)
      (by decide) (by decide)]
    decide

end EBV2013

namespace EBV2013

/-! ## Claims about the main state machine -/

/-- C8 (counterexample): after `HsmOnStart` the active substate is
capture-raw, not capture-color. -/
theorem start_substate_counterexample :
    (HsmOnStart oscarStub sysZero).curr = StateId.captureRaw ∧
      (HsmOnStart oscarStub sysZero).curr ≠ StateId.captureColor := by
  decide

/-- C8 (amended): when the main state machine is started, the top state names
capture-raw as the initial substate: after `HsmOnStart` the active substate is
capture-raw, no transition is pending, and the entry action of capture-raw has
set the mode of the snapshot to raw and the current raw frame to the primary
frame buffer. -/
theorem start_enters_capture_raw (o : Oscar) (s : Sys) :
    (HsmOnStart o s).curr = StateId.captureRaw ∧ (HsmOnStart o s).next = none ∧
      (HsmOnStart o s).data.state.enAppMode = EnAppMode.APP_CAPTURE_RAW ∧
      (HsmOnStart o s).data.pCurRawImg = 0 :=
  ⟨rfl, rfl, rfl, rfl⟩

/-- C9: a set-capture-mode event with payload true handled in capture-raw makes
capture-color the active substate, sets the mode of the snapshot to color within
the handling of that event, and leaves the request acknowledge-pending; a
payload false handled in capture-color makes capture-raw active, sets the mode
to raw and leaves the request acknowledge-pending. -/
theorem set_capture_mode_switches (o : Oscar) (s : Sys) :
    (s.curr = StateId.captureRaw → s.data.reqFlag = true →
      (HsmOnEvent o s Event.IPC_SET_CAPTURE_MODE_EVT).curr = StateId.captureColor ∧
      (HsmOnEvent o s Event.IPC_SET_CAPTURE_MODE_EVT).next = none ∧
      (HsmOnEvent o s Event.IPC_SET_CAPTURE_MODE_EVT).data.state.enAppMode =
        EnAppMode.APP_CAPTURE_COLOR ∧
      (HsmOnEvent o s Event.IPC_SET_CAPTURE_MODE_EVT).data.enReqState =
        EnRequestState.REQ_STATE_ACK_PENDING) ∧
    (s.curr = StateId.captureColor → s.data.reqFlag = false →
      (HsmOnEvent o s Event.IPC_SET_CAPTURE_MODE_EVT).curr = StateId.captureRaw ∧
      (HsmOnEvent o s Event.IPC_SET_CAPTURE_MODE_EVT).next = none ∧
      (HsmOnEvent o s Event.IPC_SET_CAPTURE_MODE_EVT).data.state.enAppMode =
        EnAppMode.APP_CAPTURE_RAW ∧
      (HsmOnEvent o s Event.IPC_SET_CAPTURE_MODE_EVT).data.enReqState =
        EnRequestState.REQ_STATE_ACK_PENDING) := by
  obtain ⟨curr, next, data⟩ := s
  constructor
  · intro h1 h2
    simp only at h1 h2
    subst h1
    simp [HsmOnEvent, handler, MainState_CaptureRaw, MainState_CaptureColor, STATE_TRAN,
      enterTarget, h2]
  · intro h1 h2
    simp only at h1 h2
    subst h1
    simp [HsmOnEvent, handler, MainState_CaptureRaw, MainState_CaptureColor, STATE_TRAN,
      enterTarget, h2]

/-- C9 (witness): after the start (capture-raw active), a request with payload
true switches to capture-color; a further request with payload false switches
back. -/
theorem set_capture_mode_switches_witness :
    ((setReqFlag (HsmOnStart oscarStub sysZero) true).curr = StateId.captureRaw ∧
      (setReqFlag (HsmOnStart oscarStub sysZero) true).data.reqFlag = true) ∧
    (HsmOnEvent oscarStub (setReqFlag (HsmOnStart oscarStub sysZero) true)
      Event.IPC_SET_CAPTURE_MODE_EVT).curr = StateId.captureColor :=
  ⟨⟨rfl, rfl⟩,
    ((set_capture_mode_switches oscarStub (setReqFlag (HsmOnStart oscarStub sysZero) true)).1
      rfl rfl).1⟩

/-- C10: a set-capture-mode event that requests the mode already active (false
in capture-raw, true in capture-color) performs no transition: the active
substate and the whole snapshot (mode, new-image-ready flag, timestamp) are
unchanged, and the request becomes acknowledge-pending. -/
theorem set_capture_mode_same_mode (o : Oscar) (s : Sys) (hn : s.next = none)
    (h : (s.curr = StateId.captureRaw ∧ s.data.reqFlag = false) ∨
      (s.curr = StateId.captureColor ∧ s.data.reqFlag = true)) :
    (HsmOnEvent o s Event.IPC_SET_CAPTURE_MODE_EVT).curr = s.curr ∧
      (HsmOnEvent o s Event.IPC_SET_CAPTURE_MODE_EVT).next = none ∧
      (HsmOnEvent o s Event.IPC_SET_CAPTURE_MODE_EVT).data.state = s.data.state ∧
      (HsmOnEvent o s Event.IPC_SET_CAPTURE_MODE_EVT).data.enReqState =
        EnRequestState.REQ_STATE_ACK_PENDING := by
  obtain ⟨curr, next, data⟩ := s
  simp only at hn h
  subst hn
  rcases h with ⟨h1, h2⟩ | ⟨h1, h2⟩
  · subst h1
    simp [HsmOnEvent, handler, MainState_CaptureRaw, enterTarget, h2]
  · subst h1
    simp [HsmOnEvent, handler, MainState_CaptureColor, enterTarget, h2]

/-- C10 (witness): after the start (capture-raw active), a request with payload
false keeps capture-raw active and is acknowledged. -/
theorem set_capture_mode_same_mode_witness :
    ((setReqFlag (HsmOnStart oscarStub sysZero) false).next = none ∧
      ((setReqFlag (HsmOnStart oscarStub sysZero) false).curr = StateId.captureRaw ∧
        (setReqFlag (HsmOnStart oscarStub sysZero) false).data.reqFlag = false)) ∧
    (HsmOnEvent oscarStub (setReqFlag (HsmOnStart oscarStub sysZero) false)
        Event.IPC_SET_CAPTURE_MODE_EVT).curr = StateId.captureRaw ∧
    (HsmOnEvent oscarStub (setReqFlag (HsmOnStart oscarStub sysZero) false)
        Event.IPC_SET_CAPTURE_MODE_EVT).data.enReqState =
      EnRequestState.REQ_STATE_ACK_PENDING :=
  ⟨⟨rfl, rfl, rfl⟩,
    (set_capture_mode_same_mode oscarStub (setReqFlag (HsmOnStart oscarStub sysZero) false)
      rfl (Or.inl ⟨rfl, rfl⟩)).1,
    (set_capture_mode_same_mode oscarStub (setReqFlag (HsmOnStart oscarStub sysZero) false)
      rfl (Or.inl ⟨rfl, rfl⟩)).2.2.2⟩

end EBV2013

namespace EBV2013

/-! ## Claims about requests handled by the state machine -/

/-- C11: an image query that the active substate does not consume
(query-raw-image in capture-color, query-color-image in capture-raw) reaches
the top state, which leaves the request negative-acknowledge-pending; the
active substate and the snapshot are unchanged. -/
theorem unconsumed_query_is_nacked (o : Oscar) (s : Sys) (hn : s.next = none) :
    (s.curr = StateId.captureColor →
      (handler o StateId.captureColor s Event.IPC_GET_RAW_IMG_EVT).1 = false ∧
      (HsmOnEvent o s Event.IPC_GET_RAW_IMG_EVT).data.enReqState =
        EnRequestState.REQ_STATE_NACK_PENDING ∧
      (HsmOnEvent o s Event.IPC_GET_RAW_IMG_EVT).curr = StateId.captureColor ∧
      (HsmOnEvent o s Event.IPC_GET_RAW_IMG_EVT).data.state = s.data.state) ∧
    (s.curr = StateId.captureRaw →
      (handler o StateId.captureRaw s Event.IPC_GET_COLOR_IMG_EVT).1 = false ∧
      (HsmOnEvent o s Event.IPC_GET_COLOR_IMG_EVT).data.enReqState =
        EnRequestState.REQ_STATE_NACK_PENDING ∧
      (HsmOnEvent o s Event.IPC_GET_COLOR_IMG_EVT).curr = StateId.captureRaw ∧
      (HsmOnEvent o s Event.IPC_GET_COLOR_IMG_EVT).data.state = s.data.state) := by
  obtain ⟨curr, next, data⟩ := s
  simp only at hn
  subst hn
  constructor
  · intro h1
    simp only at h1
    subst h1
    simp [HsmOnEvent, handler, MainState_CaptureColor, MainState_top, superOf, enterTarget]
  · intro h1
    simp only at h1
    subst h1
    simp [HsmOnEvent, handler, MainState_CaptureRaw, MainState_top, superOf, enterTarget]

/-- C11 (witness): after the start capture-raw is active; a query-color-image
request is rejected. -/
theorem unconsumed_query_is_nacked_witness :
    ((HsmOnStart oscarStub sysZero).next = none ∧
      (HsmOnStart oscarStub sysZero).curr = StateId.captureRaw) ∧
    (HsmOnEvent oscarStub (HsmOnStart oscarStub sysZero)
      Event.IPC_GET_COLOR_IMG_EVT).data.enReqState =
        EnRequestState.REQ_STATE_NACK_PENDING :=
  ⟨⟨rfl, rfl⟩,
    ((unconsumed_query_is_nacked oscarStub (HsmOnStart oscarStub sysZero) rfl).2 rfl).2.1⟩

/-- What a parallel frame event followed by a query-color-image event leaves
behind in capture-color: the response buffer holds the result buffer
`u8ResultImage` as it was before the frame event, while the annotated grayscale
image is in the grayscale working image. -/
theorem frame_then_color_query (o : Oscar) (s : Sys) (hc : s.curr = StateId.captureColor)
    (hn : s.next = none) :
    (HsmOnEvent o (HsmOnEvent o s Event.FRAMEPAR_EVT) Event.IPC_GET_COLOR_IMG_EVT).data.respImage
        = s.data.u8ResultImage ∧
      (HsmOnEvent o (HsmOnEvent o s Event.FRAMEPAR_EVT) Event.IPC_GET_COLOR_IMG_EVT).data.gray
        = (ProcessFrame o { s.data with
            gray := o.debayer (s.data.u8FrameBuffers s.data.pCurRawImg) }).gray ∧
      (HsmOnEvent o (HsmOnEvent o s Event.FRAMEPAR_EVT)
        Event.IPC_GET_COLOR_IMG_EVT).data.state.bNewImageReady = false ∧
      (HsmOnEvent o (HsmOnEvent o s Event.FRAMEPAR_EVT)
        Event.IPC_GET_COLOR_IMG_EVT).data.enReqState = EnRequestState.REQ_STATE_ACK_PENDING := by
  obtain ⟨curr, next, data⟩ := s
  simp only at hc hn
  subst hc
  subst hn
  simp [HsmOnEvent, handler, MainState_CaptureColor, enterTarget, ProcessFrame]

/-- C12 (the code at a failing input): capture-color is active, the primary
frame buffer holds a frame with one bright pixel (index 5) and the result
buffer `u8ResultImage` is all zero. After the parallel frame event and a
query-color-image event the request is acknowledge-pending and the
new-image-ready flag is cleared, but the response buffer holds the untouched
result buffer (`0` at index 5), not the annotated grayscale image that the
pipeline run left in the grayscale working image (`0xff` at index 5). -/
theorem color_query_serves_result_buffer :
    (HsmOnEvent oscarStub (HsmOnEvent oscarStub sysColorFrame Event.FRAMEPAR_EVT)
        Event.IPC_GET_COLOR_IMG_EVT).data.respImage 5 = 0 ∧
      (HsmOnEvent oscarStub (HsmOnEvent oscarStub sysColorFrame Event.FRAMEPAR_EVT)
        Event.IPC_GET_COLOR_IMG_EVT).data.gray 5 = 255 ∧
      (HsmOnEvent oscarStub (HsmOnEvent oscarStub sysColorFrame Event.FRAMEPAR_EVT)
        Event.IPC_GET_COLOR_IMG_EVT).data.respImage = sysColorFrame.data.u8ResultImage ∧
      (HsmOnEvent oscarStub (HsmOnEvent oscarStub sysColorFrame Event.FRAMEPAR_EVT)
        Event.IPC_GET_COLOR_IMG_EVT).data.state.bNewImageReady = false ∧
      (HsmOnEvent oscarStub (HsmOnEvent oscarStub sysColorFrame Event.FRAMEPAR_EVT)
        Event.IPC_GET_COLOR_IMG_EVT).data.enReqState =
          EnRequestState.REQ_STATE_ACK_PENDING := by
  obtain ⟨h1, h2, h3, h4⟩ := frame_then_color_query oscarStub sysColorFrame rfl rfl
  refine ⟨?_, ?_, h1, h3, h4⟩
  · rw [h1]
    rfl
  · rw [h2]
    rfl

end EBV2013

namespace EBV2013

/-- C13: in either substate a query-state event makes the response buffer equal
to the current snapshot (mode, new-image-ready flag, timestamp), marks the
request acknowledge-pending and leaves the snapshot and the active substate
unchanged. -/
theorem query_state_copies_snapshot (o : Oscar) (s : Sys) (hn : s.next = none)
    (hc : s.curr = StateId.captureRaw ∨ s.curr = StateId.captureColor) :
    (HsmOnEvent o s Event.IPC_GET_APP_STATE_EVT).data.respState = s.data.state ∧
      (HsmOnEvent o s Event.IPC_GET_APP_STATE_EVT).data.enReqState =
        EnRequestState.REQ_STATE_ACK_PENDING ∧
      (HsmOnEvent o s Event.IPC_GET_APP_STATE_EVT).data.state = s.data.state ∧
      (HsmOnEvent o s Event.IPC_GET_APP_STATE_EVT).curr = s.curr := by
  obtain ⟨curr, next, data⟩ := s
  simp only at hn hc
  subst hn
  rcases hc with h1 | h1
  · subst h1
    simp [HsmOnEvent, handler, MainState_CaptureRaw, enterTarget]
  · subst h1
    simp [HsmOnEvent, handler, MainState_CaptureColor, enterTarget]

/-- C13 (witness): a query-state event after the start. -/
theorem query_state_copies_snapshot_witness :
    ((HsmOnStart oscarStub sysZero).next = none ∧
      ((HsmOnStart oscarStub sysZero).curr = StateId.captureRaw ∨
        (HsmOnStart oscarStub sysZero).curr = StateId.captureColor)) ∧
    (HsmOnEvent oscarStub (HsmOnStart oscarStub sysZero)
      Event.IPC_GET_APP_STATE_EVT).data.respState = (HsmOnStart oscarStub sysZero).data.state :=
  ⟨⟨rfl, Or.inl rfl⟩,
    (query_state_copies_snapshot oscarStub (HsmOnStart oscarStub sysZero) rfl (Or.inl rfl)).1⟩

/-! ## Claims about the request dispatcher -/

/-- C14: when the transport reports a request (`SUCCESS`) whose parameter id is
none of the four known ones, `HandleIpcRequests` throws no event and hands the
acknowledge a pending request in state negative-acknowledge-pending, with the
active substate and the snapshot as they were. For each of the four known ids
it throws exactly the one corresponding event into the state machine: the state
machine afterwards is the one the engine reaches by dispatching that event once
(`HsmOnEvent`), and that state's `data` is what the acknowledge receives. With
one of the two substates active and no transition pending the event has its
effect: a state query puts the snapshot into the response, a set-capture-mode
request makes the substate named by the payload active, an image query is
served by the substate of its kind and negatively acknowledged by the other. -/
theorem dispatch_by_parameter_id (o : Oscar) (t : Transport) (s : Sys)
    (hs : t.checkErr = SUCCESS) :
    (∀ n, t.paramId = ParamId.unknown n →
      (HandleIpcRequests o t s).thrown = [] ∧
      (HandleIpcRequests o t s).sys.curr = s.curr ∧
      (HandleIpcRequests o t s).sys.next = s.next ∧
      (HandleIpcRequests o t s).sys.data =
        (t.ack { (setReqFlag s t.payload).data with
          enReqState := EnRequestState.REQ_STATE_NACK_PENDING }).2 ∧
      ({ (setReqFlag s t.payload).data with
          enReqState := EnRequestState.REQ_STATE_NACK_PENDING } : Data).state = s.data.state) ∧
    (∀ p e, (p, e) ∈ [(ParamId.GET_APP_STATE, Event.IPC_GET_APP_STATE_EVT),
          (ParamId.GET_COLOR_IMG, Event.IPC_GET_COLOR_IMG_EVT),
          (ParamId.GET_RAW_IMG, Event.IPC_GET_RAW_IMG_EVT),
          (ParamId.SET_CAPTURE_MODE, Event.IPC_SET_CAPTURE_MODE_EVT)] →
      t.paramId = p →
      (HandleIpcRequests o t s).thrown = [e] ∧
      (HandleIpcRequests o t s).sys.curr = (HsmOnEvent o (setReqFlag s t.payload) e).curr ∧
      (HandleIpcRequests o t s).sys.next = (HsmOnEvent o (setReqFlag s t.payload) e).next ∧
      (HandleIpcRequests o t s).sys.data =
        (t.ack (HsmOnEvent o (setReqFlag s t.payload) e).data).2 ∧
      (HandleIpcRequests o t s).err =
        (t.ack (HsmOnEvent o (setReqFlag s t.payload) e).data).1) ∧
    (s.next = none → (s.curr = StateId.captureRaw ∨ s.curr = StateId.captureColor) →
      (t.paramId = ParamId.GET_APP_STATE →
        (HandleIpcRequests o t s).sys.curr = s.curr ∧
        (HandleIpcRequests o t s).sys.data =
          (t.ack { (setReqFlag s t.payload).data with
            respState := s.data.state
            enReqState := EnRequestState.REQ_STATE_ACK_PENDING }).2) ∧
      (t.paramId = ParamId.SET_CAPTURE_MODE →
        (HandleIpcRequests o t s).sys.curr =
          (if t.payload = true then StateId.captureColor else StateId.captureRaw) ∧
        (HandleIpcRequests o t s).sys.next = none ∧
        ∃ d, (HandleIpcRequests o t s).sys.data = (t.ack d).2 ∧
          d.enReqState = EnRequestState.REQ_STATE_ACK_PENDING ∧
          ((HandleIpcRequests o t s).sys.curr ≠ s.curr →
            d.state.enAppMode = (if t.payload = true then EnAppMode.APP_CAPTURE_COLOR
              else EnAppMode.APP_CAPTURE_RAW))) ∧
      (t.paramId = ParamId.GET_COLOR_IMG →
        (HandleIpcRequests o t s).sys.curr = s.curr ∧
        (s.curr = StateId.captureColor →
          (HandleIpcRequests o t s).sys.data =
            (t.ack { (setReqFlag s t.payload).data with
              respImage := s.data.u8ResultImage
              state := { s.data.state with bNewImageReady := false }
              enReqState := EnRequestState.REQ_STATE_ACK_PENDING }).2) ∧
        (s.curr = StateId.captureRaw →
          (HandleIpcRequests o t s).sys.data =
            (t.ack { (setReqFlag s t.payload).data with
              enReqState := EnRequestState.REQ_STATE_NACK_PENDING }).2)) ∧
      (t.paramId = ParamId.GET_RAW_IMG →
        (HandleIpcRequests o t s).sys.curr = s.curr ∧
        (s.curr = StateId.captureRaw →
          (HandleIpcRequests o t s).sys.data =
            (t.ack { (setReqFlag s t.payload).data with
              respImage := o.debayer (s.data.u8FrameBuffers s.data.pCurRawImg)
              state := { s.data.state with bNewImageReady := false }
              enReqState := EnRequestState.REQ_STATE_ACK_PENDING }).2) ∧
        (s.curr = StateId.captureColor →
          (HandleIpcRequests o t s).sys.data =
            (t.ack { (setReqFlag s t.payload).data with
              enReqState := EnRequestState.REQ_STATE_NACK_PENDING }).2))) := by
  refine ⟨?_, ?_, ?_⟩
  · intro n hp
    simp [HandleIpcRequests, hs, hp, ipcSwitch, setReqFlag]
  · intro p e hmem hp
    simp only [List.mem_cons, Prod.mk.injEq, List.mem_singleton, List.not_mem_nil,
      or_false] at hmem
    rcases hmem with ⟨h1, h2⟩ | ⟨h1, h2⟩ | ⟨h1, h2⟩ | ⟨h1, h2⟩ <;>
      · subst h1
        subst h2
        simp [HandleIpcRequests, hs, hp, ipcSwitch, ThrowEvent]
  · intro hn hc
    obtain ⟨curr, next, data⟩ := s
    simp only at hn hc
    subst hn
    refine ⟨?_, ?_, ?_, ?_⟩
    · intro hp
      rcases hc with h1 | h1 <;> subst h1 <;>
        simp [HandleIpcRequests, hs, hp, ipcSwitch, ThrowEvent, HsmOnEvent, handler,
          MainState_CaptureRaw, MainState_CaptureColor, enterTarget, setReqFlag]
    · intro hp
      rcases hc with h1 | h1 <;> subst h1 <;> cases hb : t.payload <;>
        simp [HandleIpcRequests, hs, hp, hb, ipcSwitch, ThrowEvent, HsmOnEvent, handler,
          MainState_CaptureRaw, MainState_CaptureColor, MainState_top, enterTarget, setReqFlag,
          STATE_TRAN] <;>
        first
          | exact ⟨_, rfl, rfl⟩
          | exact ⟨_, rfl, rfl, rfl⟩
    · intro hp
      rcases hc with h1 | h1 <;> subst h1 <;>
        simp [HandleIpcRequests, hs, hp, ipcSwitch, ThrowEvent, HsmOnEvent, handler,
          MainState_CaptureRaw, MainState_CaptureColor, MainState_top, superOf, enterTarget,
          setReqFlag]
    · intro hp
      rcases hc with h1 | h1 <;> subst h1 <;>
        simp [HandleIpcRequests, hs, hp, ipcSwitch, ThrowEvent, HsmOnEvent, handler,
          MainState_CaptureRaw, MainState_CaptureColor, MainState_top, superOf, enterTarget,
          setReqFlag]

/-- C14 (witness): after the start (capture-raw active) a request with the
unknown parameter id 99 throws no event, and a set-capture-mode request with
the payload true throws the set-capture-mode event, after which capture-color is
the active substate. -/
theorem dispatch_by_parameter_id_witness :
    ((transportStub 0 (ParamId.unknown 99)).checkErr = SUCCESS ∧
      (transportStub 0 (ParamId.unknown 99)).paramId = ParamId.unknown 99 ∧
      (transportSetMode true).checkErr = SUCCESS ∧
      (transportSetMode true).paramId = ParamId.SET_CAPTURE_MODE ∧
      (HsmOnStart oscarStub sysZero).next = none ∧
      (HsmOnStart oscarStub sysZero).curr = StateId.captureRaw) ∧
    (HandleIpcRequests oscarStub (transportStub 0 (ParamId.unknown 99))
      (HsmOnStart oscarStub sysZero)).thrown = [] ∧
    (HandleIpcRequests oscarStub (transportSetMode true)
      (HsmOnStart oscarStub sysZero)).thrown = [Event.IPC_SET_CAPTURE_MODE_EVT] ∧
    (HandleIpcRequests oscarStub (transportSetMode true)
      (HsmOnStart oscarStub sysZero)).sys.curr = StateId.captureColor :=
  ⟨⟨rfl, rfl, rfl, rfl, rfl, rfl⟩,
    ((dispatch_by_parameter_id oscarStub (transportStub 0 (ParamId.unknown 99))
      (HsmOnStart oscarStub sysZero) rfl).1 99 rfl).1,
    ((dispatch_by_parameter_id oscarStub (transportSetMode true)
      (HsmOnStart oscarStub sysZero) rfl).2.1 ParamId.SET_CAPTURE_MODE
        Event.IPC_SET_CAPTURE_MODE_EVT (by decide) rfl).1,
    (((dispatch_by_parameter_id oscarStub (transportSetMode true)
      (HsmOnStart oscarStub sysZero) rfl).2.2 rfl (Or.inl rfl)).2.1 rfl).1⟩

/-- C15: when `CheckIpcRequests` returns a status other than `SUCCESS` and other
than `-ENO_MSG_AVAIL`, `HandleIpcRequests` returns exactly that status, throws
no event, does not call `AckIpcRequests` and leaves the state machine and
`data` (pending request, snapshot, active substate) as they were; when it
returns `-ENO_MSG_AVAIL`, no event is thrown and the status returned is the one
of `AckIpcRequests`. -/
theorem check_error_is_propagated (o : Oscar) (t : Transport) (s : Sys) :
    (t.checkErr ≠ SUCCESS → t.checkErr ≠ -t.ENO_MSG_AVAIL →
      (HandleIpcRequests o t s).err = t.checkErr ∧
      (HandleIpcRequests o t s).thrown = [] ∧
      (HandleIpcRequests o t s).ackTried = false ∧
      (HandleIpcRequests o t s).sys = s) ∧
    (t.checkErr ≠ SUCCESS → t.checkErr = -t.ENO_MSG_AVAIL →
      (HandleIpcRequests o t s).thrown = [] ∧
      (HandleIpcRequests o t s).ackTried = true ∧
      (HandleIpcRequests o t s).err = (t.ack s.data).1 ∧
      (HandleIpcRequests o t s).sys.curr = s.curr) := by
  constructor
  · intro h1 h2
    unfold HandleIpcRequests
    rw [if_neg h1, if_neg h2]
    exact ⟨rfl, rfl, rfl, rfl⟩
  · intro h1 h2
    unfold HandleIpcRequests
    rw [if_neg h1, if_pos h2]
    exact ⟨rfl, rfl, rfl, rfl⟩

/-- C15 (witness): the transport reports the error `-7` (neither `SUCCESS` nor
`-ENO_MSG_AVAIL = -5`): the error is returned and nothing else happens. -/
theorem check_error_is_propagated_witness :
    ((transportStub (-7) (ParamId.unknown 0)).checkErr ≠ SUCCESS ∧
      (transportStub (-7) (ParamId.unknown 0)).checkErr ≠
        -(transportStub (-7) (ParamId.unknown 0)).ENO_MSG_AVAIL) ∧
    (HandleIpcRequests oscarStub (transportStub (-7) (ParamId.unknown 0))
      (HsmOnStart oscarStub sysZero)).err = -7 :=
  ⟨⟨by decide, by decide⟩,
    ((check_error_is_propagated oscarStub (transportStub (-7) (ParamId.unknown 0))
      (HsmOnStart oscarStub sysZero)).1 (by decide) (by decide)).1⟩

end EBV2013

namespace EBV2013

/-! ## Claims about sequences of events -/

/-- Each of the six events, with any payload, preserves `ModeInv`. -/
theorem modeInv_step (o : Oscar) (s : Sys) (e : Event) (b : Bool) (hs : ModeInv s)
    (he : e ∈ mainEvents) : ModeInv (stepEvent o s (e, b)) := by
  obtain ⟨curr, next, data⟩ := s
  obtain ⟨hn, hc⟩ := hs
  simp only at hn hc
  subst hn
  simp only [mainEvents, List.mem_cons, List.mem_singleton, List.not_mem_nil, or_false] at he
  rcases hc with ⟨h1, h2⟩ | ⟨h1, h2⟩
  · subst h1
    rcases he with he | he | he | he | he | he <;> subst he
    · simp [ModeInv, stepEvent, ThrowEvent, setReqFlag, HsmOnEvent, handler,
        MainState_CaptureRaw, enterTarget, h2]
    · simp [ModeInv, stepEvent, ThrowEvent, setReqFlag, HsmOnEvent, handler,
        MainState_CaptureRaw, enterTarget, h2]
    · simp [ModeInv, stepEvent, ThrowEvent, setReqFlag, HsmOnEvent, handler,
        MainState_CaptureRaw, enterTarget, h2]
    · simp [ModeInv, stepEvent, ThrowEvent, setReqFlag, HsmOnEvent, handler,
        MainState_CaptureRaw, MainState_top, superOf, enterTarget, h2]
    · simp [ModeInv, stepEvent, ThrowEvent, setReqFlag, HsmOnEvent, handler,
        MainState_CaptureRaw, enterTarget, h2]
    · cases b <;>
        simp [ModeInv, stepEvent, ThrowEvent, setReqFlag, HsmOnEvent, handler,
          MainState_CaptureRaw, MainState_CaptureColor, STATE_TRAN, enterTarget, h2]
  · subst h1
    rcases he with he | he | he | he | he | he <;> subst he
    · simp [ModeInv, stepEvent, ThrowEvent, setReqFlag, HsmOnEvent, handler,
        MainState_CaptureColor, enterTarget, h2]
    · simp [ModeInv, stepEvent, ThrowEvent, setReqFlag, HsmOnEvent, handler,
        MainState_CaptureColor, enterTarget, ProcessFrame, h2]
    · simp [ModeInv, stepEvent, ThrowEvent, setReqFlag, HsmOnEvent, handler,
        MainState_CaptureColor, enterTarget, h2]
    · simp [ModeInv, stepEvent, ThrowEvent, setReqFlag, HsmOnEvent, handler,
        MainState_CaptureColor, enterTarget, h2]
    · simp [ModeInv, stepEvent, ThrowEvent, setReqFlag, HsmOnEvent, handler,
        MainState_CaptureColor, MainState_top, superOf, enterTarget, h2]
    · cases b <;>
        simp [ModeInv, stepEvent, ThrowEvent, setReqFlag, HsmOnEvent, handler,
          MainState_CaptureRaw, MainState_CaptureColor, STATE_TRAN, enterTarget, h2]

/-- A sequence of the six events preserves `ModeInv`. -/
theorem modeInv_foldl (o : Oscar) (evs : List (Event × Bool)) :
    ∀ s, ModeInv s → (∀ x, x ∈ evs → x.1 ∈ mainEvents) →
      ModeInv (evs.foldl (stepEvent o) s) := by
  induction evs with
  | nil =>
    intro s hs _
    exact hs
  | cons x evs ih =>
    intro s hs h
    rw [List.foldl_cons]
    apply ih
    · exact modeInv_step o s x.1 x.2 hs (h x (List.mem_cons_self x evs))
    · intro y hy
      exact h y (List.mem_cons_of_mem x hy)

/-- The state after the start satisfies `ModeInv`. -/
theorem modeInv_start (o : Oscar) (s0 : Sys) : ModeInv (HsmOnStart o s0) :=
  ⟨rfl, Or.inl ⟨rfl, rfl⟩⟩

/-- C17: in every state reached from the start by a finite sequence of the six
events, the set-capture-mode events carrying any payload, exactly one of
capture-raw and capture-color is the active state, no transition is pending,
and the mode of the snapshot is the one of the active substate (raw for
capture-raw, color for capture-color). -/
theorem mode_matches_active_substate (o : Oscar) (s0 : Sys) (evs : List (Event × Bool))
    (h : ∀ x, x ∈ evs → x.1 ∈ mainEvents) :
    ((runEvents o s0 evs).curr = StateId.captureRaw ∨
        (runEvents o s0 evs).curr = StateId.captureColor) ∧
      (runEvents o s0 evs).curr ≠ StateId.top ∧
      (runEvents o s0 evs).next = none ∧
      modeOf (runEvents o s0 evs).curr = some (runEvents o s0 evs).data.state.enAppMode := by
  have hinv : ModeInv (runEvents o s0 evs) :=
    modeInv_foldl o evs (HsmOnStart o s0) (modeInv_start o s0) h
  obtain ⟨hn, hc⟩ := hinv
  rcases hc with ⟨h1, h2⟩ | ⟨h1, h2⟩
  · rw [h1, h2]
    exact ⟨Or.inl rfl, by decide, hn, rfl⟩
  · rw [h1, h2]
    exact ⟨Or.inr rfl, by decide, hn, rfl⟩

/-- C17 (witness): start, a frame, a request for color, a frame, a request for
raw and a query: capture-raw is active and the mode is raw. -/
theorem mode_matches_active_substate_witness :
    (∀ x, x ∈ [(Event.FRAMESEQ_EVT, false), (Event.IPC_SET_CAPTURE_MODE_EVT, true),
        (Event.FRAMEPAR_EVT, false), (Event.IPC_SET_CAPTURE_MODE_EVT, false),
        (Event.IPC_GET_COLOR_IMG_EVT, false)] → x.1 ∈ mainEvents) ∧
      modeOf (runEvents oscarStub sysZero
        [(Event.FRAMESEQ_EVT, false), (Event.IPC_SET_CAPTURE_MODE_EVT, true),
          (Event.FRAMEPAR_EVT, false), (Event.IPC_SET_CAPTURE_MODE_EVT, false),
          (Event.IPC_GET_COLOR_IMG_EVT, false)]).curr =
        some (runEvents oscarStub sysZero
          [(Event.FRAMESEQ_EVT, false), (Event.IPC_SET_CAPTURE_MODE_EVT, true),
            (Event.FRAMEPAR_EVT, false), (Event.IPC_SET_CAPTURE_MODE_EVT, false),
            (Event.IPC_GET_COLOR_IMG_EVT, false)]).data.state.enAppMode :=
  ⟨by decide,
    (mode_matches_active_substate oscarStub sysZero
      [(Event.FRAMESEQ_EVT, false), (Event.IPC_SET_CAPTURE_MODE_EVT, true),
        (Event.FRAMEPAR_EVT, false), (Event.IPC_SET_CAPTURE_MODE_EVT, false),
        (Event.IPC_GET_COLOR_IMG_EVT, false)] (by decide)).2.2.2⟩

/-- C18: an event other than set-capture-mode (the two frame events and the
three queries) leaves the active substate as it was, whichever of the two
substates is active; the parallel frame event handled in capture-raw leaves the
whole state as it was: the snapshot, the pending request and every working
image. -/
theorem other_events_keep_substate (o : Oscar) (s : Sys) (e : Event) (hn : s.next = none)
    (hc : s.curr = StateId.captureRaw ∨ s.curr = StateId.captureColor)
    (he : e ∈ [Event.FRAMESEQ_EVT, Event.FRAMEPAR_EVT, Event.IPC_GET_APP_STATE_EVT,
      Event.IPC_GET_COLOR_IMG_EVT, Event.IPC_GET_RAW_IMG_EVT]) :
    (HsmOnEvent o s e).curr = s.curr ∧ (HsmOnEvent o s e).next = none ∧
      (s.curr = StateId.captureRaw → HsmOnEvent o s Event.FRAMEPAR_EVT = s) := by
  obtain ⟨curr, next, data⟩ := s
  simp only at hn hc
  subst hn
  simp only [List.mem_cons, List.mem_singleton, List.not_mem_nil, or_false] at he
  rcases hc with h1 | h1
  · subst h1
    rcases he with he | he | he | he | he <;> subst he <;>
      simp [HsmOnEvent, handler, MainState_CaptureRaw, MainState_top, superOf, enterTarget]
  · subst h1
    rcases he with he | he | he | he | he <;> subst he <;>
      simp [HsmOnEvent, handler, MainState_CaptureColor, MainState_top, superOf, enterTarget,
        ProcessFrame]

/-- C18 (witness): the parallel frame event after the start (capture-raw
active) leaves the state as it was. -/
theorem other_events_keep_substate_witness :
    ((HsmOnStart oscarStub sysZero).next = none ∧
      ((HsmOnStart oscarStub sysZero).curr = StateId.captureRaw ∨
        (HsmOnStart oscarStub sysZero).curr = StateId.captureColor) ∧
      Event.FRAMEPAR_EVT ∈ [Event.FRAMESEQ_EVT, Event.FRAMEPAR_EVT,
        Event.IPC_GET_APP_STATE_EVT, Event.IPC_GET_COLOR_IMG_EVT, Event.IPC_GET_RAW_IMG_EVT]) ∧
    HsmOnEvent oscarStub (HsmOnStart oscarStub sysZero) Event.FRAMEPAR_EVT =
      HsmOnStart oscarStub sysZero :=
  ⟨⟨rfl, Or.inl rfl, by decide⟩,
    (other_events_keep_substate oscarStub (HsmOnStart oscarStub sysZero) Event.FRAMEPAR_EVT
      rfl (Or.inl rfl) (by decide)).2.2 rfl⟩

end EBV2013

namespace EBV2013

/-! ## Claims about the pipeline -/

/-- C16: in `ProcessFrame` the threshold is `otsuThreshold` of the histogram of
the grayscale image, and after the binarisation every pixel index `i` of the
image holds `0` in the threshold image if the grayscale pixel is below the
threshold and `0xff` otherwise; so every pixel of the threshold image is `0` or
`0xff`. -/
theorem binarize_by_threshold (o : Oscar) (d : Data) :
    (ProcessFrame o d).nThreshold =
        otsuThreshold (buildHist d.gray (o.nc * o.height)) ((o.nc * o.height : Nat) : Int) ∧
      ∀ i, i < o.nc * o.height →
        (ProcessFrame o d).thr i =
            (if d.gray i < (ProcessFrame o d).nThreshold then 0 else 255) ∧
          ((ProcessFrame o d).thr i = 0 ∨ (ProcessFrame o d).thr i = 255) := by
  have ht : (ProcessFrame o d).nThreshold =
      otsuThreshold (buildHist d.gray (o.nc * o.height)) ((o.nc * o.height : Nat) : Int) := by
    simp only [ProcessFrame]
  have hthr : (ProcessFrame o d).thr =
      binarize o.nc (o.nc * o.height) (ProcessFrame o d).nThreshold d.gray d.thr := by
    simp only [ProcessFrame]
  refine ⟨ht, ?_⟩
  intro i hi
  have h : (ProcessFrame o d).thr i =
      (if d.gray i < (ProcessFrame o d).nThreshold then 0 else 255) := by
    rw [hthr]
    exact binarize_apply o.nc o.height _ d.gray d.thr i hi
  refine ⟨h, ?_⟩
  rw [h]
  by_cases hlt : d.gray i < (ProcessFrame o d).nThreshold
  · left
    rw [if_pos hlt]
  · right
    rw [if_neg hlt]

/-- C16 (witness): pixel 5 of a 4x4 image. -/
theorem binarize_by_threshold_witness :
    5 < oscarStub.nc * oscarStub.height ∧
      ((ProcessFrame oscarStub sysColorFrame.data).thr 5 = 0 ∨
        (ProcessFrame oscarStub sysColorFrame.data).thr 5 = 255) :=
  ⟨by decide, ((binarize_by_threshold oscarStub sysColorFrame.data).2 5 (by decide)).2⟩

/-- C19: for every histogram inside the `int` range whose smallest occupied
level `lo` and largest occupied level `hi` satisfy `lo < hi`, `otsuThreshold`
returns `k` with `lo < k <= hi`; the background `[0,k)` and the foreground
`[k,256)` are both non-empty, and an image with that histogram has a pixel that
the binarisation sets to `0` and a pixel that it sets to `0xff`. -/
theorem otsu_between_occupied_levels (hist : Nat → Nat) (siz : Int) (lo hi : Nat)
    (hno : NoOverflow hist) (hlh : lo < hi) (hhi : hi < 256)
    (hlo0 : hist lo ≠ 0) (hhi0 : hist hi ≠ 0)
    (hbelow : ∀ g, g < lo → hist g = 0) (habove : ∀ g, hi < g → g < 256 → hist g = 0) :
    lo < otsuThreshold hist siz ∧ otsuThreshold hist siz ≤ hi ∧
      cntLow hist (otsuThreshold hist siz) ≠ 0 ∧ cntHigh hist (otsuThreshold hist siz) ≠ 0 ∧
      ∀ nc height gray thr, hist = buildHist gray (nc * height) →
        ∃ i j, i < nc * height ∧ j < nc * height ∧
          binarize nc (nc * height) (otsuThreshold hist siz) gray thr i = 0 ∧
          binarize nc (nc * height) (otsuThreshold hist siz) gray thr j = 255 := by
  have h0 : cntLow hist hi ≠ 0 := (cntLow_ne_zero_iff hist hi).2 ⟨lo, hlh, hlo0⟩
  have h1 : cntHigh hist hi ≠ 0 := (cntHigh_ne_zero_iff hist hi).2 ⟨hi, le_refl hi, hhi, hhi0⟩
  have hz := F32.ge_zero_of_nonNeg _ (otsuScoreAt_nonNeg hist hi hno hhi h0 h1)
  obtain ⟨r1, r2, _⟩ := otsuThreshold_max_of_exists hist siz ⟨hi, hhi, hz⟩
  have hne := (otsuScoreAt_ne_nan_iff hist _ hno r1).1 (F32.ne_nan_of_ge r2).1
  obtain ⟨g1, hg1, hg1n⟩ := (cntLow_ne_zero_iff hist _).1 hne.1
  obtain ⟨g2, hg2, hg2b, hg2n⟩ := (cntHigh_ne_zero_iff hist _).1 hne.2
  have hlo : lo < otsuThreshold hist siz := by
    by_contra hc
    exact hg1n (hbelow g1 (by omega))
  have hhik : otsuThreshold hist siz ≤ hi := by
    by_contra hc
    exact hg2n (habove g2 (by omega) hg2b)
  refine ⟨hlo, hhik, hne.1, hne.2, ?_⟩
  intro nc height gray thr hh
  rw [hh] at hlo0 hhi0
  obtain ⟨i, hi1, hi2⟩ := buildHist_ne_zero gray lo _ hlo0
  obtain ⟨j, hj1, hj2⟩ := buildHist_ne_zero gray hi _ hhi0
  refine ⟨i, j, hi1, hj1, ?_, ?_⟩
  · rw [binarize_apply nc height _ gray thr i hi1, hi2, if_pos hlo]
  · rw [binarize_apply nc height _ gray thr j hj1, hj2, if_neg (by omega)]

/-- C19 (witness): one sample at level 50 and one at level 200. -/
theorem otsu_between_occupied_levels_witness :
    (NoOverflow histTwoSpikes ∧ 50 < 200 ∧ 200 < 256 ∧ histTwoSpikes 50 ≠ 0 ∧
      histTwoSpikes 200 ≠ 0 ∧ (∀ g, g < 50 → histTwoSpikes g = 0) ∧
      (∀ g, 200 < g → g < 256 → histTwoSpikes g = 0)) ∧
    (50 < otsuThreshold histTwoSpikes 0 ∧ otsuThreshold histTwoSpikes 0 ≤ 200) :=
  ⟨⟨histTwoSpikes_noOverflow, by decide, by decide, by decide, by decide,
      fun g h => histTwoSpikes_zero g (by omega) (by omega),
      fun g h _ => histTwoSpikes_zero g (by omega) (by omega)⟩,
    (otsu_between_occupied_levels histTwoSpikes 0 50 200 histTwoSpikes_noOverflow
      (by decide) (by decide) (by decide) (by decide)
      (fun g h => histTwoSpikes_zero g (by omega) (by omega))
      (fun g h _ => histTwoSpikes_zero g (by omega) (by omega))).1,
    (otsu_between_occupied_levels histTwoSpikes 0 50 200 histTwoSpikes_noOverflow
      (by decide) (by decide) (by decide) (by decide)
      (fun g h => histTwoSpikes_zero g (by omega) (by omega))
      (fun g h _ => histTwoSpikes_zero g (by omega) (by omega))).2.1⟩

/-- C20: erosion followed by dilation turns on no bit that was off in the
threshold image: at every pixel `(r,c)` with `2 <= r <= height-3` and
`2 <= c <= nc-3`, every bit set in the dilation output is set in the threshold
image at `(r,c)`. -/
theorem erode_dilate_sets_no_new_bit (nc height : Nat) (thr ero0 dil0 : Img) (r c k : Nat)
    (hr1 : 2 ≤ r) (hr2 : r + 3 ≤ height) (hc1 : 2 ≤ c) (hc2 : c + 3 ≤ nc)
    (h : (px (dilatePass nc (nc * height) (erodePass nc (nc * height) thr ero0) dil0)
      nc r c).testBit k = true) :
    (px thr nc r c).testBit k = true := by
  rw [dilatePass_interior nc height _ dil0 r c (by omega) (by omega) (by omega) (by omega)] at h
  obtain ⟨r2, c2, hr, hc, hb⟩ := or3x3_testBit _ nc r c k h
  rw [erodePass_interior nc height thr ero0 r2 c2 (by omega) (by omega) (by omega)
    (by omega)] at hb
  exact and3x3_testBit thr nc r2 c2 r c k (by omega) (by omega) hb

/-- C20 (witness): a 5x5 image that is all "on": at the centre `(2,2)` bit 7 of
the dilation output is set, and so is bit 7 of the threshold image. -/
theorem erode_dilate_sets_no_new_bit_witness :
    (2 ≤ 2 ∧ 2 + 3 ≤ 5 ∧
      (px (dilatePass 5 (5 * 5) (erodePass 5 (5 * 5) (fun _ => 255) imgBlank) imgBlank)
        5 2 2).testBit 7 = true) ∧
    (px (fun _ => 255) 5 2 2).testBit 7 = true :=
  ⟨⟨by decide, by decide, by decide⟩,
    erode_dilate_sets_no_new_bit 5 5 (fun _ => 255) imgBlank imgBlank 2 2 7 (by decide)
      (by decide) (by decide) (by decide) (by decide)⟩

end EBV2013
